import Mathlib

/-!
# Verification of the MockMaster request-matching and replay core

This file shallowly embeds the matching/replay core of the MockMaster
repository and proves properties of it:

* `packages/core/src/match.ts` — `patternToRegex`, `matchPath`,
  `parsePathParams`;
* `packages/core/src/mocks.ts` — `matchMethod`, `findMatchingMock`;
* `packages/msw-adapter/src/replay.ts` — `matchRequest`,
  `createReplayHandler`;
* the scenario helpers — `createScenario`, `addRecordingToScenario`,
  `findMatchingRecording`;
* the persistence helpers — `serializeScenario`, `deserializeScenario`.

Strings are embedded as `List Char`.  JavaScript exceptions
(`new RegExp` can throw a `SyntaxError` for an invalid or duplicated
named capture group) are embedded as `Option`: a `none` result of a
function models a thrown exception.
-/

namespace MockMaster

/-- JavaScript strings, embedded as lists of characters. -/
abbrev Str := List Char

/-- A JavaScript `\w` word character: `[A-Za-z0-9_]`. -/
def isWordChar (c : Char) : Bool := c.isAlpha || c.isDigit || c = '_'

/-! ## The pattern-compilation pipeline (`patternToRegex`, match.ts lines 8–31)

The source builds a regex source string in four passes and then calls
`new RegExp`.  Each pass is embedded as a string-to-string function; the
final `new RegExp` call is embedded as a parser from the produced string
into a small token language (`RTok`), returning `none` exactly when the
JavaScript constructor would throw a `SyntaxError` (an invalid named
capture group, or two groups with the same name). -/

/-- The placeholder the source substitutes for `*` before escaping. -/
def wildcardPlaceholder : Str := "__WILDCARD__".data

/-- Pass 1: `pattern.replace(/\*/g, '__WILDCARD__')`. -/
def substWildcards : Str → Str
  | [] => []
  | c :: cs => (if c = '*' then wildcardPlaceholder else [c]) ++ substWildcards cs

/-- The character class escaped by pass 2: `[.+?^${}()|[\]\\]`. -/
def isEscapable (c : Char) : Bool :=
  c = '.' || c = '+' || c = '?' || c = '^' || c = '$' || c = '\x7b' || c = '\x7d' ||
  c = '(' || c = ')' || c = '|' || c = '[' || c = ']' || c = '\\'

/-- Pass 2: `…​.replace(/[.+?^${}()|[\]\\]/g, '\\$&')`. -/
def escapeRegex : Str → Str
  | [] => []
  | c :: cs => (if isEscapable c then ['\\', c] else [c]) ++ escapeRegex cs

/-- The maximal run of word characters at the head of a string, with the rest. -/
def takeWordRun : Str → Str × Str
  | [] => ([], [])
  | c :: cs =>
    if isWordChar c then
      let p := takeWordRun cs
      (c :: p.1, p.2)
    else ([], c :: cs)

/-- Pass 3, fuel-driven worker: `…​.replace(/:(\w+)/g, '(?<$1>[^/]+)')`.
A `:` followed by at least one word character is replaced by a named
capture group; the replacement text is not rescanned, matching the
left-to-right single sweep of a global `replace`.  The fuel only bounds
recursion; `substParams` supplies enough for the whole input. -/
def substParamsGo : Nat → Str → Str
  | 0, s => s
  | _ + 1, [] => []
  | fuel + 1, c :: cs =>
    if c = ':' then
      match takeWordRun cs with
      | ([], _) => ':' :: substParamsGo fuel cs
      | (run, rest) => "(?<".data ++ run ++ ">[^/]+)".data ++ substParamsGo fuel rest
    else c :: substParamsGo fuel cs

/-- Pass 3 of `patternToRegex`: replace each `:(\w+)` with `(?<$1>[^/]+)`. -/
def substParams (s : Str) : Str := substParamsGo s.length s

/-- Pass 4, fuel-driven worker: replace each `__WILDCARD__` occurrence,
looking at the character that follows it in the scanned string: at the
end of the string (or before a literal `$`) it becomes the greedy `.*`,
otherwise the single-segment `[^/]+`. -/
def substPlaceholdersGo : Nat → Str → Str
  | 0, s => s
  | _ + 1, [] => []
  | fuel + 1, c :: cs =>
    if wildcardPlaceholder.isPrefixOf (c :: cs) then
      let rest := (c :: cs).drop wildcardPlaceholder.length
      (if rest.isEmpty || rest.head? = some '$' then ".*".data else "[^/]+".data) ++
        substPlaceholdersGo fuel rest
    else c :: substPlaceholdersGo fuel cs

/-- Pass 4 of `patternToRegex`. -/
def substPlaceholders (s : Str) : Str := substPlaceholdersGo s.length s

/-- The regex source string built by `patternToRegex` (the part between the
`^` and `$` anchors; the matcher below is anchored by construction). -/
def regexStr (pattern : Str) : Str :=
  substPlaceholders (substParams (escapeRegex (substWildcards pattern)))

/-! ## The compiled regex, as tokens

On the strings `regexStr` can produce, the regex grammar degenerates to a
sequence of atoms: escaped literal characters, plain literal characters,
the named group `(?<name>[^/]+)`, the wildcard bodies `[^/]+` and `.*`. -/

/-- One atom of the compiled pattern. -/
inductive RTok where
  /-- Matches exactly the character `c`. -/
  | lit (c : Char)
  /-- A named capture group `(?<name>[^/]+)`. -/
  | group (name : Str)
  /-- `[^/]+`: one or more non-slash characters, not captured. -/
  | nonSlash
  /-- `.*`: any characters except line terminators (no `s` flag), greedy. -/
  | star
deriving DecidableEq, Repr

/-- Read a group name up to the closing `>`; `none` if no `>` follows
(JavaScript would fail to parse the group and throw). -/
def parseName : Str → Option (Str × Str)
  | [] => none
  | c :: cs =>
    if c = '>' then some ([], cs)
    else match parseName cs with
      | none => none
      | some (n, r) => some (c :: n, r)

/-- A valid JavaScript named-capture-group identifier, for the names this
pipeline can produce: nonempty, an ASCII letter or `_` first, word
characters throughout.  A name that begins with a digit (e.g. from the
pattern `/:1`) or that was mangled by the wildcard pass is invalid, and
`new RegExp` throws a `SyntaxError` on it. -/
def validName : Str → Bool
  | [] => false
  | c :: cs => (c.isAlpha || c = '_') && cs.all isWordChar

/-- Characters that, unescaped, would not be a literal atom in the built
regex (quantifiers, anchors, alternation, group close).  `regexStr` never
emits them outside the recognized constructs; reaching one is a parse
failure. -/
def isBareSpecial (c : Char) : Bool :=
  c = ')' || c = '?' || c = '+' || c = '*' || c = '^' || c = '$' || c = '|'

/-- Fuel-driven worker for `parseTokens`. -/
def parseTokensGo : Nat → Str → Option (List RTok)
  | 0, _ => none
  | _ + 1, [] => some []
  | fuel + 1, c :: rest =>
    if c = '\\' then
      match rest with
      | [] => none
      | c2 :: cs => (parseTokensGo fuel cs).map (RTok.lit c2 :: ·)
    else if c = '(' then
      match rest with
      | '?' :: '<' :: cs =>
        match parseName cs with
        | none => none
        | some (n, rest2) =>
          if validName n && "[^/]+)".data.isPrefixOf rest2 then
            (parseTokensGo fuel (rest2.drop 6)).map (RTok.group n :: ·)
          else none
      | _ => none
    else if c = '[' then
      if "^/]+".data.isPrefixOf rest then
        (parseTokensGo fuel (rest.drop 4)).map (RTok.nonSlash :: ·)
      else none
    else if c = '.' then
      match rest with
      | '*' :: cs => (parseTokensGo fuel cs).map (RTok.star :: ·)
      | _ => none
    else if isBareSpecial c then none
    else (parseTokensGo fuel rest).map (RTok.lit c :: ·)

/-- Parse the regex source string produced by `regexStr` into atoms;
`none` models a `SyntaxError` from `new RegExp`. -/
def parseTokens (s : Str) : Option (List RTok) := parseTokensGo (s.length + 1) s

/-- The capture-group names of a compiled pattern, in order. -/
def groupNames (ts : List RTok) : List Str :=
  ts.filterMap fun t => match t with | RTok.group n => some n | _ => none

/-- `patternToRegex` (match.ts lines 8–31): the four passes, then
`new RegExp` — embedded as parsing into tokens.  `none` models the
constructor throwing: an invalid group name, or two groups sharing a
name (both are `SyntaxError`s in JavaScript). -/
def patternToRegex (pattern : Str) : Option (List RTok) :=
  match parseTokens (regexStr pattern) with
  | none => none
  | some ts => if (groupNames ts).Nodup then some ts else none

/-! ## The anchored matcher

`regex.test(path)` / `path.match(regex)` on `^…​$`-anchored regexes of the
shape above.  The backtracking order of the JavaScript engine — greedy
quantifiers try the longest extent first and shrink on failure — is
embedded by scanning candidate split points longest-first with
`List.findSome?`; the first success yields the captures. -/

/-- A JavaScript line terminator (ECMA-262 `LineTerminator`): LF, CR,
U+2028 LINE SEPARATOR, U+2029 PARAGRAPH SEPARATOR.  `.` in a regex
without the `s` (dotAll) flag — and `patternToRegex` passes no flags —
matches any character *except* these four. -/
def isLineTerm (c : Char) : Bool :=
  c = '\n' || c = '\r' || c = '\u2028' || c = '\u2029'

/-- Match a token list against an entire string; `some caps` gives the
named captures of the leftmost (greedy-first) successful parse, `none`
means no match.  `.*` (the `star` token) matches any characters except
line terminators, since the source's `new RegExp` call passes no `s`
flag; the negated class `[^/]` excludes only `/` and does match line
terminators. -/
def rmatch : List RTok → Str → Option (List (Str × Str))
  | [], s => if s.isEmpty then some [] else none
  | RTok.lit c :: ts, s =>
    match s with
    | [] => none
    | d :: ds => if d = c then rmatch ts ds else none
  | RTok.star :: ts, s =>
    ((List.range (s.length + 1)).reverse).findSome? fun k =>
      if (s.take k).all (fun c => !isLineTerm c) then rmatch ts (s.drop k) else none
  | RTok.nonSlash :: ts, s =>
    ((List.range (s.length + 1)).reverse).findSome? fun k =>
      if 1 ≤ k && (s.take k).all (· != '/') then rmatch ts (s.drop k) else none
  | RTok.group n :: ts, s =>
    ((List.range (s.length + 1)).reverse).findSome? fun k =>
      if 1 ≤ k && (s.take k).all (· != '/') then
        (rmatch ts (s.drop k)).map ((n, s.take k) :: ·)
      else none

/-- `matchPath` (match.ts lines 39–52).  `some b` is the returned boolean;
`none` models the `SyntaxError` escaping from `patternToRegex`. -/
def matchPath (pattern path : Str) : Option Bool :=
  if pattern = path then some true
  else if pattern.contains ':' || pattern.contains '*' then
    (patternToRegex pattern).map fun ts => (rmatch ts path).isSome
  else some false

/-- `parsePathParams` (match.ts lines 60–74).  `some m` is the returned
record as an association list in group order; `none` models the
`SyntaxError` escaping from `patternToRegex`.  When the regex does not
match, or has no capture groups, the source returns `{}` — here `[]`. -/
def parsePathParams (pattern path : Str) : Option (List (Str × Str)) :=
  if !pattern.contains ':' then some []
  else
    (patternToRegex pattern).map fun ts =>
      match rmatch ts path with
      | none => []
      | some caps => caps

/-! ## JSON values

Request and response bodies are TypeScript `unknown`; the spec restricts
them to JSON-representable data.  They are embedded at the type `Json`
below.  Numbers are embedded as integers (timestamps and statuses are
integral; IEEE-754 fractional values are outside this embedding). -/

/-- A JSON-representable JavaScript value (numbers restricted to integers). -/
inductive Json where
  | null
  | bool (b : Bool)
  | num (n : Int)
  | str (s : Str)
  | arr (items : List Json)
  | obj (fields : List (Str × Json))

/-! ## The mock registry (`packages/core/src/types.ts`, `mocks.ts`) -/

/-- `MockRequest` (types.ts): method, path, optional query/headers/body. -/
structure MockRequest where
  method : Str
  path : Str
  query : Option (List (Str × Str))
  headers : Option (List (Str × Str))
  body : Option Json

/-- `MockResponse` (types.ts). -/
structure MockResponse where
  status : Int
  headers : Option (List (Str × Str))
  body : Option Json
  delay : Option Int

/-- A mock's response: a static value or a responder function of the
request (`MockResponse | ((request: MockRequest) => MockResponse)`). -/
inductive MockResponder where
  | static (response : MockResponse)
  | dynamic (f : MockRequest → MockResponse)

/-- `Mock` (types.ts): a registry entry. -/
structure Mock where
  id : Str
  pattern : Str
  method : Str
  response : MockResponder

/-- `matchMethod` (mocks.ts): case-insensitive comparison via
`toUpperCase()` (ASCII here; HTTP verbs are ASCII). -/
def matchMethod (expected actual : Str) : Bool :=
  expected.map Char.toUpper == actual.map Char.toUpper

/-- `findMatchingMock` (mocks.ts): linear scan in order.  The method is
compared first with an early `return false`, so a method mismatch skips
path compilation; the path match can throw (a recorded pattern that does
not compile).  `some none` embeds the source's `undefined` (no match),
`some (some m)` a found mock, `none` a propagated exception. -/
def findMatchingMock : List Mock → MockRequest → Option (Option Mock)
  | [], _ => some none
  | m :: ms, request =>
    if !matchMethod m.method request.method then findMatchingMock ms request
    else
      match matchPath m.pattern request.path with
      | none => none
      | some true => some (some m)
      | some false => findMatchingMock ms request

/-! ## Recordings and scenarios (`packages/msw-adapter/src/types.ts`) -/

/-- `RecordedRequest` (msw-adapter types.ts). -/
structure RecordedRequest where
  method : Str
  url : Str
  path : Str
  query : Option (List (Str × Str))
  headers : Option (List (Str × Str))
  body : Option Json
  timestamp : Int

/-- `RecordedResponse` (msw-adapter types.ts). -/
structure RecordedResponse where
  status : Int
  statusText : Option Str
  headers : Option (List (Str × Str))
  body : Option Json
  timestamp : Int

/-- `Recording` (msw-adapter types.ts). -/
structure Recording where
  id : Str
  request : RecordedRequest
  response : RecordedResponse

/-- `Scenario` (msw-adapter types.ts). -/
structure Scenario where
  name : Str
  description : Option Str
  recordings : List Recording
  createdAt : Int
  updatedAt : Int

/-! ## The replay resolver (`packages/msw-adapter/src/replay.ts`) -/

/-- `IncomingRequest` (replay.ts). -/
structure IncomingRequest where
  method : Str
  path : Str

/-- `ReplayResponse` (replay.ts). -/
structure ReplayResponse where
  status : Int
  statusText : Option Str
  headers : Option (List (Str × Str))
  body : Option Json

/-- `matchRequest` (replay.ts lines 31–35): the method comparison is
*exact* string equality (`===`), and both conjuncts are computed before
`&&`, so `matchPath` runs — and can throw — even when the methods
already differ. -/
def matchRequest (recorded : RecordedRequest) (incoming : IncomingRequest) : Option Bool :=
  (matchPath recorded.path incoming.path).map fun pathMatches =>
    (recorded.method == incoming.method) && pathMatches

/-- The response view `createReplayHandler` builds from a matched
recording: status and body always copied; statusText and headers copied
when present (with optionals embedded as `Option`, an unconditional copy
of the `Option` field coincides with the source's conditional
assignment). -/
def toReplayResponse (resp : RecordedResponse) : ReplayResponse :=
  { status := resp.status, statusText := resp.statusText,
    headers := resp.headers, body := resp.body }

/-- The `scenario.recordings.find(...)` scan inside `createReplayHandler`,
with exceptions from `matchRequest` propagated. -/
def findRecording : List Recording → IncomingRequest → Option (Option Recording)
  | [], _ => some none
  | r :: rs, request =>
    match matchRequest r.request request with
    | none => none
    | some true => some (some r)
    | some false => findRecording rs request

/-- `createReplayHandler` (replay.ts lines 37–68), with the scenario and
request supplied: scan the recordings in insertion order, return the
first match's response view, `undefined` (`some none`) when nothing
matches, or propagate a thrown `SyntaxError` (`none`). -/
def createReplayHandler (scenario : Scenario) (request : IncomingRequest) :
    Option (Option ReplayResponse) :=
  (findRecording scenario.recordings request).map fun found =>
    found.map fun r => toReplayResponse r.response

/-! ## Scenario mutators and lookup (msw-adapter `recorder.ts`) -/

/-- `addRecordingToScenario`: a new scenario value with the recording
appended and `updatedAt` refreshed; the source's `Date.now()` is
embedded as the explicit argument `now`. -/
def addRecordingToScenario (scenario : Scenario) (recording : Recording) (now : Int) :
    Scenario :=
  { scenario with
    recordings := scenario.recordings ++ [recording],
    updatedAt := now }

/-- `findMatchingRecording` (recorder.ts): first recording whose recorded
method and path are *string-equal* to the request's — no pattern
compilation, no wildcard or parameter matching, no case folding. -/
def findMatchingRecording (scenario : Scenario) (request : RecordedRequest) :
    Option Recording :=
  scenario.recordings.find? fun r =>
    r.request.method == request.method && r.request.path == request.path

/-- The per-recording success criterion of the replay scan, as a plain
predicate: method strictly equal and the recorded path, used as a
pattern, matching the incoming path. -/
def replayMatches (request : IncomingRequest) (r : Recording) : Bool :=
  (r.request.method == request.method) &&
    (matchPath r.request.path request.path == some true)

/-- The per-mock success criterion of `findMatchingMock`, as a plain
predicate. -/
def mockMatches (request : MockRequest) (m : Mock) : Bool :=
  matchMethod m.method request.method &&
    (matchPath m.pattern request.path == some true)

/-! ## Persistence (`packages/msw-adapter/src/persistence.ts`)

`serializeScenario` is `JSON.stringify(scenario, null, 2)` and
`deserializeScenario` is `JSON.parse(json) as Scenario`.  The two
built-ins are embedded below: a pretty-printer with a two-space indent
exactly mirroring `JSON.stringify`'s output shape (including its string
escaping), and a whitespace-tolerant JSON reader for `JSON.parse`
(restricted to integer numerals, the fragment the stringifier emits for
the integer-valued numbers of this embedding). -/

/-- The decimal digit character of `n % 10`. -/
def decDigit (n : Nat) : Char := Char.ofNat (48 + n % 10)

/-- The decimal digits of a natural number, most significant first. -/
def natChars (n : Nat) : Str :=
  if n < 10 then [decDigit n]
  else natChars (n / 10) ++ [decDigit (n % 10)]
decreasing_by exact Nat.div_lt_self (by omega) (by omega)

/-- `JSON.stringify` output for an integer-valued number. -/
def intChars (i : Int) : Str :=
  if i < 0 then '-' :: natChars i.natAbs else natChars i.natAbs

/-- Lowercase hex digit, as `Number::toString(16)` uses. -/
def toLowerHexDigit (n : Nat) : Char :=
  if n < 10 then Char.ofNat (48 + n) else Char.ofNat (87 + n)

/-- One string character, escaped exactly as `JSON.stringify` escapes it:
`"` and `\` and the named control escapes, a `\u00xx` escape for the
other control characters, everything else literally. -/
def escapeJsonChar (c : Char) : Str :=
  if c = '"' then ['\\', '"']
  else if c = '\\' then ['\\', '\\']
  else if c = '\x08' then ['\\', 'b']
  else if c = '\x0c' then ['\\', 'f']
  else if c = '\n' then ['\\', 'n']
  else if c = '\r' then ['\\', 'r']
  else if c = '\t' then ['\\', 't']
  else if c.toNat < 32 then
    ['\\', 'u', '0', '0', toLowerHexDigit (c.toNat / 16), toLowerHexDigit (c.toNat % 16)]
  else [c]

/-- The escaped body of a JSON string literal. -/
def escapeBody : Str → Str
  | [] => []
  | c :: cs => escapeJsonChar c ++ escapeBody cs

/-- A JSON string literal: quote, escaped body, quote. -/
def quoteChars (s : Str) : Str := '"' :: (escapeBody s ++ ['"'])

/-- The indentation for nesting depth `d` with `JSON.stringify`'s gap of
two spaces. -/
def indentChars (d : Nat) : Str := List.replicate (2 * d) ' '

mutual
/-- `JSON.stringify(v, null, 2)` at nesting depth `d`. -/
def jprint : Nat → Json → Str
  | _, Json.null => "null".data
  | _, Json.bool true => "true".data
  | _, Json.bool false => "false".data
  | _, Json.num n => intChars n
  | _, Json.str s => quoteChars s
  | _, Json.arr [] => "[]".data
  | d, Json.arr (v :: vs) =>
    '[' :: '\n' :: (jprintItems d (v :: vs) ++ '\n' :: (indentChars d ++ [']']))
  | _, Json.obj [] => "\x7b\x7d".data
  | d, Json.obj (f :: fs) =>
    '\x7b' :: '\n' :: (jprintFields d (f :: fs) ++ '\n' :: (indentChars d ++ ['\x7d']))

/-- The element lines of a nonempty array at parent depth `d`. -/
def jprintItems : Nat → List Json → Str
  | _, [] => []
  | d, v :: vs => indentChars (d + 1) ++ (jprint (d + 1) v ++ jprintItemsSep d vs)

/-- `,`-and-newline separated continuation of the element lines. -/
def jprintItemsSep : Nat → List Json → Str
  | _, [] => []
  | d, v :: vs =>
    ',' :: '\n' :: (indentChars (d + 1) ++ (jprint (d + 1) v ++ jprintItemsSep d vs))

/-- The member lines of a nonempty object at parent depth `d`. -/
def jprintFields : Nat → List (Str × Json) → Str
  | _, [] => []
  | d, (k, v) :: fs =>
    indentChars (d + 1) ++
      (quoteChars k ++ ':' :: ' ' :: (jprint (d + 1) v ++ jprintFieldsSep d fs))

/-- `,`-and-newline separated continuation of the member lines. -/
def jprintFieldsSep : Nat → List (Str × Json) → Str
  | _, [] => []
  | d, (k, v) :: fs =>
    ',' :: '\n' :: (indentChars (d + 1) ++
      (quoteChars k ++ ':' :: ' ' :: (jprint (d + 1) v ++ jprintFieldsSep d fs)))
end

/-- JSON insignificant whitespace. -/
def isJsonWs (c : Char) : Bool := c = ' ' || c = '\t' || c = '\n' || c = '\r'

/-- Drop leading JSON whitespace. -/
def skipJsonWs : Str → Str
  | [] => []
  | c :: cs => if isJsonWs c then skipJsonWs cs else c :: cs

/-- The maximal digit run at the head of a string, with the rest. -/
def takeDigitRun : Str → Str × Str
  | [] => ([], [])
  | c :: cs =>
    if c.isDigit then
      let p := takeDigitRun cs
      (c :: p.1, p.2)
    else ([], c :: cs)

/-- The value of a decimal digit string. -/
def digitsVal (ds : Str) : Nat := ds.foldl (fun acc c => acc * 10 + (c.toNat - 48)) 0

/-- Parse a nonempty digit run. -/
def parseJsonNat (s : Str) : Option (Nat × Str) :=
  let p := takeDigitRun s
  if p.1.isEmpty then none else some (digitsVal p.1, p.2)

/-- Parse an optionally-signed integer numeral (the number fragment the
pretty-printer emits). -/
def parseJsonInt (s : Str) : Option (Int × Str) :=
  if s.head? = some '-' then (parseJsonNat s.tail).map fun p => (-(p.1 : Int), p.2)
  else (parseJsonNat s).map fun p => ((p.1 : Int), p.2)

/-- The numeric value of a hex digit, either case. -/
def parseHexDigit (c : Char) : Option Nat :=
  let n := c.toNat
  if 48 ≤ n && n ≤ 57 then some (n - 48)
  else if 97 ≤ n && n ≤ 102 then some (n - 87)
  else if 65 ≤ n && n ≤ 70 then some (n - 55)
  else none

/-- The character denoted by a single-letter JSON escape. -/
def unescapeJson (e : Char) : Option Char :=
  if e = '"' then some '"'
  else if e = '\\' then some '\\'
  else if e = '/' then some '/'
  else if e = 'b' then some '\x08'
  else if e = 'f' then some '\x0c'
  else if e = 'n' then some '\n'
  else if e = 'r' then some '\r'
  else if e = 't' then some '\t'
  else none

/-- Parse a JSON string body after its opening quote: literal characters
up to the closing quote, with escapes (including `\uXXXX`) decoded;
unescaped control characters are rejected as `JSON.parse` rejects them. -/
def parseStrBody : Str → Option (Str × Str)
  | [] => none
  | c :: rest =>
    if c = '"' then some ([], rest)
    else if c = '\\' then
      match rest with
      | [] => none
      | e :: rest2 =>
        if e = 'u' then
          match rest2 with
          | a :: b :: c2 :: d2 :: rest3 =>
            match parseHexDigit a, parseHexDigit b, parseHexDigit c2, parseHexDigit d2 with
            | some va, some vb, some vc, some vd =>
              (parseStrBody rest3).map fun p =>
                (Char.ofNat (((va * 16 + vb) * 16 + vc) * 16 + vd) :: p.1, p.2)
            | _, _, _, _ => none
          | _ => none
        else
          match unescapeJson e with
          | some ch => (parseStrBody rest2).map fun p => (ch :: p.1, p.2)
          | none => none
    else if c.toNat < 32 then none
    else (parseStrBody rest).map fun p => (c :: p.1, p.2)

mutual
/-- `JSON.parse`'s value grammar, fuel-driven (each recursive call spends
one unit; callers supply the input length plus one). -/
def parseJsonValue : Nat → Str → Option (Json × Str)
  | 0, _ => none
  | fuel + 1, s =>
    match skipJsonWs s with
    | [] => none
    | c :: r =>
      if c = 'n' then
        match r with
        | 'u' :: 'l' :: 'l' :: r2 => some (Json.null, r2)
        | _ => none
      else if c = 't' then
        match r with
        | 'r' :: 'u' :: 'e' :: r2 => some (Json.bool true, r2)
        | _ => none
      else if c = 'f' then
        match r with
        | 'a' :: 'l' :: 's' :: 'e' :: r2 => some (Json.bool false, r2)
        | _ => none
      else if c = '"' then (parseStrBody r).map fun p => (Json.str p.1, p.2)
      else if c = '[' then
        match skipJsonWs r with
        | [] => none
        | c2 :: r2 =>
          if c2 = ']' then some (Json.arr [], r2)
          else (parseJsonItems fuel r).map fun p => (Json.arr p.1, p.2)
      else if c = '\x7b' then
        match skipJsonWs r with
        | [] => none
        | c2 :: r2 =>
          if c2 = '\x7d' then some (Json.obj [], r2)
          else (parseJsonFields fuel r).map fun p => (Json.obj p.1, p.2)
      else if c = '-' || c.isDigit then
        (parseJsonInt (c :: r)).map fun p => (Json.num p.1, p.2)
      else none

/-- One-or-more comma-separated array elements up to the closing `]`. -/
def parseJsonItems : Nat → Str → Option (List Json × Str)
  | 0, _ => none
  | fuel + 1, s =>
    match parseJsonValue fuel s with
    | none => none
    | some (v, r) =>
      match skipJsonWs r with
      | [] => none
      | c :: r2 =>
        if c = ',' then (parseJsonItems fuel r2).map fun p => (v :: p.1, p.2)
        else if c = ']' then some ([v], r2)
        else none

/-- One-or-more comma-separated object members up to the closing brace. -/
def parseJsonFields : Nat → Str → Option (List (Str × Json) × Str)
  | 0, _ => none
  | fuel + 1, s =>
    match skipJsonWs s with
    | [] => none
    | c0 :: r =>
      if c0 = '"' then
        match parseStrBody r with
        | none => none
        | some (k, r1) =>
          match skipJsonWs r1 with
          | [] => none
          | c1 :: r2 =>
            if c1 = ':' then
              match parseJsonValue fuel r2 with
              | none => none
              | some (v, r3) =>
                match skipJsonWs r3 with
                | [] => none
                | c3 :: r4 =>
                  if c3 = ',' then
                    (parseJsonFields fuel r4).map fun p => ((k, v) :: p.1, p.2)
                  else if c3 = '\x7d' then some ([(k, v)], r4)
                  else none
            else none
      else none
end

/-- A string that cannot extend a digit run: empty or headed by a
non-digit.  Every printed-JSON continuation after a numeral qualifies. -/
def noDigitHead : Str → Bool
  | [] => true
  | c :: _ => !c.isDigit

/-- `JSON.parse`: a complete document, with only whitespace allowed after
the value; `none` embeds the thrown `SyntaxError`. -/
def parseJson (s : Str) : Option Json :=
  match parseJsonValue (s.length + 1) s with
  | none => none
  | some (v, r) => if (skipJsonWs r).isEmpty then some v else none

/-! ## Scenario (de)serialization -/

/-- A string-to-string record as a JSON object. -/
def strPairsToJson (l : List (Str × Str)) : Json :=
  Json.obj (l.map fun kv => (kv.1, Json.str kv.2))

/-- An optional property: omitted when `undefined`, as `JSON.stringify`
omits `undefined`-valued properties. -/
def optProp (k : Str) : Option Json → List (Str × Json)
  | none => []
  | some v => [(k, v)]

/-- A `RecordedRequest` as the JSON object `JSON.stringify` sees. -/
def recordedRequestToJson (r : RecordedRequest) : Json :=
  Json.obj
    ([("method".data, Json.str r.method), ("url".data, Json.str r.url),
      ("path".data, Json.str r.path)] ++
      optProp "query".data (r.query.map strPairsToJson) ++
      optProp "headers".data (r.headers.map strPairsToJson) ++
      optProp "body".data r.body ++
      [("timestamp".data, Json.num r.timestamp)])

/-- A `RecordedResponse` as the JSON object `JSON.stringify` sees. -/
def recordedResponseToJson (r : RecordedResponse) : Json :=
  Json.obj
    ([("status".data, Json.num r.status)] ++
      optProp "statusText".data (r.statusText.map Json.str) ++
      optProp "headers".data (r.headers.map strPairsToJson) ++
      optProp "body".data r.body ++
      [("timestamp".data, Json.num r.timestamp)])

/-- A `Recording` as the JSON object `JSON.stringify` sees. -/
def recordingToJson (r : Recording) : Json :=
  Json.obj
    [("id".data, Json.str r.id), ("request".data, recordedRequestToJson r.request),
      ("response".data, recordedResponseToJson r.response)]

/-- A `Scenario` as the JSON object `JSON.stringify` sees.  `createScenario`
builds the object without `description` and assigns it afterwards when
present, so in the runtime property order — which `JSON.stringify`
follows — `description` comes last. -/
def scenarioToJson (s : Scenario) : Json :=
  Json.obj
    ([("name".data, Json.str s.name),
      ("recordings".data, Json.arr (s.recordings.map recordingToJson)),
      ("createdAt".data, Json.num s.createdAt),
      ("updatedAt".data, Json.num s.updatedAt)] ++
      optProp "description".data (s.description.map Json.str))

/-- `serializeScenario` (persistence.ts): `JSON.stringify(scenario, null, 2)`. -/
def serializeScenario (s : Scenario) : Str := jprint 0 (scenarioToJson s)

/-- First value of a key in a parsed object. -/
def jgetProp (fields : List (Str × Json)) (k : Str) : Option Json :=
  (fields.find? fun kv => kv.1 == k).map fun kv => kv.2

/-- Read a JSON string. -/
def asStr : Json → Option Str
  | Json.str s => some s
  | _ => none

/-- Read a JSON integer. -/
def asInt : Json → Option Int
  | Json.num n => some n
  | _ => none

/-- Read a JSON array. -/
def asArr : Json → Option (List Json)
  | Json.arr l => some l
  | _ => none

/-- Read a JSON object. -/
def asObj : Json → Option (List (Str × Json))
  | Json.obj l => some l
  | _ => none

/-- Read each member's string value, in order. -/
def decodePairs : List (Str × Json) → Option (List (Str × Str))
  | [] => some []
  | (k, v) :: rest =>
    match asStr v, decodePairs rest with
    | some s, some t => some ((k, s) :: t)
    | _, _ => none

/-- Read a string-valued record. -/
def strPairsOfJson (v : Json) : Option (List (Str × Str)) :=
  match v with
  | Json.obj fields => decodePairs fields
  | _ => none

/-- Decode each element of a parsed array, in order. -/
def decodeList {α : Type} (dec : Json → Option α) : List Json → Option (List α)
  | [] => some []
  | v :: vs =>
    match dec v, decodeList dec vs with
    | some a, some as => some (a :: as)
    | _, _ => none

/-- Read an optional string property: an absent key reads as `none`. -/
def optStrProp (fields : List (Str × Json)) (k : Str) : Option (Option Str) :=
  match jgetProp fields k with
  | none => some none
  | some v => (asStr v).map some

/-- Read an optional string-record property. -/
def optStrPairsProp (fields : List (Str × Json)) (k : Str) :
    Option (Option (List (Str × Str))) :=
  match jgetProp fields k with
  | none => some none
  | some v => (strPairsOfJson v).map some

/-- Structural reading of a `RecordedRequest` from parsed JSON (the typed
view the source's unchecked `as` cast promises). -/
def recordedRequestOfJson (v : Json) : Option RecordedRequest := do
  let fields ← asObj v
  let method ← (jgetProp fields "method".data).bind asStr
  let url ← (jgetProp fields "url".data).bind asStr
  let path ← (jgetProp fields "path".data).bind asStr
  let query ← optStrPairsProp fields "query".data
  let headers ← optStrPairsProp fields "headers".data
  let timestamp ← (jgetProp fields "timestamp".data).bind asInt
  pure { method := method, url := url, path := path, query := query, headers := headers,
         body := jgetProp fields "body".data, timestamp := timestamp }

/-- Structural reading of a `RecordedResponse` from parsed JSON. -/
def recordedResponseOfJson (v : Json) : Option RecordedResponse := do
  let fields ← asObj v
  let status ← (jgetProp fields "status".data).bind asInt
  let statusText ← optStrProp fields "statusText".data
  let headers ← optStrPairsProp fields "headers".data
  let timestamp ← (jgetProp fields "timestamp".data).bind asInt
  pure { status := status, statusText := statusText, headers := headers,
         body := jgetProp fields "body".data, timestamp := timestamp }

/-- Structural reading of a `Recording` from parsed JSON. -/
def recordingOfJson (v : Json) : Option Recording := do
  let fields ← asObj v
  let id ← (jgetProp fields "id".data).bind asStr
  let request ← (jgetProp fields "request".data).bind recordedRequestOfJson
  let response ← (jgetProp fields "response".data).bind recordedResponseOfJson
  pure { id := id, request := request, response := response }

/-- Structural reading of a `Scenario` from parsed JSON. -/
def scenarioOfJson (v : Json) : Option Scenario := do
  let fields ← asObj v
  let name ← (jgetProp fields "name".data).bind asStr
  let description ← optStrProp fields "description".data
  let items ← (jgetProp fields "recordings".data).bind asArr
  let recordings ← decodeList recordingOfJson items
  let createdAt ← (jgetProp fields "createdAt".data).bind asInt
  let updatedAt ← (jgetProp fields "updatedAt".data).bind asInt
  pure { name := name, description := description, recordings := recordings,
         createdAt := createdAt, updatedAt := updatedAt }

/-- `deserializeScenario` (persistence.ts): `JSON.parse(json) as Scenario`,
the cast read structurally. -/
def deserializeScenario (s : Str) : Option Scenario :=
  (parseJson s).bind scenarioOfJson

/-! ## Characterization of colon-free patterns

For a pattern with no `:` (so the parameter pass is the identity) and no
`_` (so no text of the pattern can collide with the wildcard
placeholder), the pipeline's output admits a direct description: each
`*` becomes `.*` at the end of the pattern and `[^/]+` elsewhere, and
every other character an (escaped) literal.  `wildStr` is that regex
source string, `wildTokens` the parsed atoms. -/

/-- The regex source a colon-free, underscore-free pattern compiles to. -/
def wildStr : Str → Str
  | [] => []
  | c :: rest =>
    (if c = '*' then (if rest.isEmpty then ".*".data else "[^/]+".data)
     else if isEscapable c then ['\\', c] else [c]) ++ wildStr rest

/-- The atoms a colon-free, underscore-free pattern compiles to. -/
def wildTokens : Str → List RTok
  | [] => []
  | c :: rest =>
    (if c = '*' then (if rest.isEmpty then RTok.star else RTok.nonSlash)
     else RTok.lit c) :: wildTokens rest

/-! ## Concrete fixtures used by witnesses and counterexamples -/

/-- A recording that does not match the witness request (different path). -/
def c6Recording1 : Recording :=
  { id := "rec1".data,
    request := { method := "GET".data, url := "http://api/other".data, path := "/other".data,
                 query := none, headers := none, body := none, timestamp := 1 },
    response := { status := 404, statusText := none, headers := none, body := none,
                  timestamp := 2 } }

/-- A recording whose path is the pattern `/users/:id`. -/
def c6Recording2 : Recording :=
  { id := "rec2".data,
    request := { method := "GET".data, url := "http://api/users/7".data,
                 path := "/users/:id".data,
                 query := none, headers := none, body := none, timestamp := 3 },
    response := { status := 200, statusText := some "OK".data,
                  headers := some [("content-type".data, "application/json".data)],
                  body := some (Json.str "u7".data), timestamp := 4 } }

/-- A two-recording scenario where only the second recording matches. -/
def c6Scenario : Scenario :=
  { name := "users".data, description := none, recordings := [c6Recording1, c6Recording2],
    createdAt := 0, updatedAt := 0 }

/-- The incoming request matched by `c6Recording2` only. -/
def c6Request : IncomingRequest := { method := "GET".data, path := "/users/7".data }

/-- A recording whose recorded path `/:1` does not compile and whose
method is `POST`. -/
def c6BadRecording : Recording :=
  { id := "r".data,
    request := { method := "POST".data, url := "/:1".data, path := "/:1".data,
                 query := none, headers := none, body := none, timestamp := 0 },
    response := { status := 200, statusText := none, headers := none, body := none,
                  timestamp := 0 } }

/-- A scenario holding one recording whose recorded path `/:1` does not
compile, and whose method `POST` matches no `GET` request. -/
def c6BadScenario : Scenario :=
  { name := "bad".data, description := none, recordings := [c6BadRecording],
    createdAt := 0, updatedAt := 0 }

/-- A mock whose method does not match the witness request. -/
def c7Mock1 : Mock :=
  { id := "m1".data, pattern := "/users".data, method := "POST".data,
    response := MockResponder.static
      { status := 201, headers := none, body := none, delay := none } }

/-- A mock registered with the lowercase method `get`. -/
def c7Mock2 : Mock :=
  { id := "m2".data, pattern := "/users/*".data, method := "get".data,
    response := MockResponder.static
      { status := 200, headers := none, body := some (Json.arr []), delay := none } }

/-- The witness mock sequence. -/
def c7Mocks : List Mock := [c7Mock1, c7Mock2]

/-- The witness request: uppercase `GET`, matching `c7Mock2` only. -/
def c7Request : MockRequest :=
  { method := "GET".data, path := "/users/9".data, query := none, headers := none,
    body := none }

/-- A mock whose pattern `/:1` does not compile. -/
def c7BadMock : Mock :=
  { id := "mb".data, pattern := "/:1".data, method := "GET".data,
    response := MockResponder.static
      { status := 200, headers := none, body := none, delay := none } }

/-- A request whose method matches `c7BadMock`, forcing path compilation. -/
def c7BadRequest : MockRequest :=
  { method := "GET".data, path := "/x".data, query := none, headers := none, body := none }

/-- A small scenario for the append witness. -/
def c8Scenario : Scenario :=
  { name := "s".data, description := some "d".data, recordings := [], createdAt := 1,
    updatedAt := 2 }

/-- A recording appended by the `addRecordingToScenario` witness. -/
def c8Recording : Recording :=
  { id := "r8".data,
    request := { method := "GET".data, url := "/a".data, path := "/a".data,
                 query := none, headers := none, body := none, timestamp := 3 },
    response := { status := 204, statusText := none, headers := none, body := none,
                  timestamp := 4 } }

/-- A recording whose stored path is the *pattern* `/users/:id`. -/
def c10Recording : Recording :=
  { id := "r10".data,
    request := { method := "GET".data, url := "http://api/users/123".data,
                 path := "/users/:id".data,
                 query := none, headers := none, body := none, timestamp := 0 },
    response := { status := 200, statusText := none, headers := none,
                  body := some (Json.num 7), timestamp := 0 } }

/-- A scenario holding only `c10Recording`. -/
def c10Scenario : Scenario :=
  { name := "ten".data, description := none, recordings := [c10Recording],
    createdAt := 0, updatedAt := 0 }

/-- A concrete incoming request with the concrete path `/users/123`. -/
def c10Request : RecordedRequest :=
  { method := "GET".data, url := "http://api/users/123".data, path := "/users/123".data,
    query := none, headers := none, body := none, timestamp := 9 }

/-- A recording stored under the concrete path `/users/123`, for the
exact-equality witness. -/
def c10ExactRecording : Recording :=
  { id := "rx".data,
    request := { method := "GET".data, url := "http://api/users/123".data,
                 path := "/users/123".data,
                 query := none, headers := none, body := none, timestamp := 0 },
    response := { status := 200, statusText := none, headers := none, body := none,
                  timestamp := 0 } }

/-- A scenario holding only `c10ExactRecording`. -/
def c10ExactScenario : Scenario :=
  { name := "tenx".data, description := none, recordings := [c10ExactRecording],
    createdAt := 0, updatedAt := 0 }

/-! ## Matcher lemmas -/

theorem findSome?_isSome_iff {α β : Type _} (f : α → Option β) :
    ∀ l : List α, (l.findSome? f).isSome ↔ ∃ a ∈ l, (f a).isSome
  | [] => by simp [List.findSome?_nil]
  | a :: l => by
    rw [List.findSome?_cons]
    cases h : f a with
    | some b =>
      constructor
      · intro _
        exact ⟨a, List.mem_cons_self a l, by simp [h]⟩
      · intro _
        simp
    | none =>
      rw [findSome?_isSome_iff f l]
      constructor
      · rintro ⟨x, hx, hfx⟩
        exact ⟨x, List.mem_cons_of_mem a hx, hfx⟩
      · rintro ⟨x, hx, hfx⟩
        rcases List.mem_cons.mp hx with rfl | hx'
        · simp [h] at hfx
        · exact ⟨x, hx', hfx⟩

theorem rmatch_nil_isSome (s : Str) : (rmatch [] s).isSome ↔ s = [] := by
  unfold rmatch
  cases s <;> simp

theorem rmatch_star_isSome (ts : List RTok) (s : Str) :
    (rmatch (RTok.star :: ts) s).isSome ↔
      ∃ k ≤ s.length, (s.take k).all (fun c => !isLineTerm c) = true ∧
        (rmatch ts (s.drop k)).isSome := by
  show ((List.range (s.length + 1)).reverse.findSome? fun k =>
      if (s.take k).all (fun c => !isLineTerm c) then rmatch ts (s.drop k)
      else none).isSome ↔ _
  rw [findSome?_isSome_iff]
  constructor
  · rintro ⟨k, hk, hm⟩
    rw [List.mem_reverse, List.mem_range, Nat.lt_succ_iff] at hk
    by_cases hc : (s.take k).all (fun c => !isLineTerm c) = true
    · rw [if_pos hc] at hm
      exact ⟨k, hk, hc, hm⟩
    · rw [if_neg hc] at hm
      simp at hm
  · rintro ⟨k, hk, hc, hm⟩
    refine ⟨k, ?_, ?_⟩
    · rw [List.mem_reverse, List.mem_range, Nat.lt_succ_iff]; exact hk
    · rw [if_pos hc]; exact hm

theorem rmatch_nonSlash_isSome (ts : List RTok) (s : Str) :
    (rmatch (RTok.nonSlash :: ts) s).isSome ↔
      ∃ k, 1 ≤ k ∧ k ≤ s.length ∧ (s.take k).all (· != '/') = true ∧
        (rmatch ts (s.drop k)).isSome := by
  show ((List.range (s.length + 1)).reverse.findSome? fun k =>
      if 1 ≤ k && (s.take k).all (· != '/') then rmatch ts (s.drop k) else none).isSome ↔ _
  rw [findSome?_isSome_iff]
  constructor
  · rintro ⟨k, hk, hm⟩
    rw [List.mem_reverse, List.mem_range, Nat.lt_succ_iff] at hk
    by_cases hc : (decide (1 ≤ k) && (s.take k).all (· != '/')) = true
    · rw [if_pos hc] at hm
      rcases (Bool.and_eq_true _ _).mp hc with ⟨h1, h2⟩
      exact ⟨k, of_decide_eq_true h1, hk, h2, hm⟩
    · rw [if_neg (by simpa using hc)] at hm
      simp at hm
  · rintro ⟨k, h1, hk, h2, hm⟩
    refine ⟨k, ?_, ?_⟩
    · rw [List.mem_reverse, List.mem_range, Nat.lt_succ_iff]; exact hk
    · rw [if_pos (by simp [h1, h2])]
      exact hm

/-- The literal tokens of a string. -/
def litToks (cs : Str) : List RTok := cs.map RTok.lit

theorem rmatch_lits_append (cs : Str) (ts : List RTok) (s : Str) :
    rmatch (litToks cs ++ ts) (cs ++ s) = rmatch ts s := by
  induction cs with
  | nil => rfl
  | cons c cs ih => simpa [litToks, rmatch] using ih

theorem rmatch_lits_isSome (cs : Str) (ts : List RTok) :
    ∀ s' : Str, (rmatch (litToks cs ++ ts) s').isSome ↔
      ∃ s : Str, s' = cs ++ s ∧ (rmatch ts s).isSome := by
  induction cs with
  | nil =>
    intro s'
    constructor
    · intro h; exact ⟨s', rfl, h⟩
    · rintro ⟨s, rfl, h⟩; exact h
  | cons c cs ih =>
    intro s'
    cases s' with
    | nil =>
      simp only [litToks, List.map_cons, List.cons_append, rmatch]
      constructor
      · intro h; simp at h
      · rintro ⟨s, hs, _⟩; simp at hs
    | cons d ds =>
      show (if d = c then rmatch (litToks cs ++ ts) ds else none).isSome ↔ _
      by_cases hdc : d = c
      · subst hdc
        rw [if_pos rfl, ih ds]
        constructor
        · rintro ⟨s, rfl, h⟩; exact ⟨s, rfl, h⟩
        · rintro ⟨s, hs, h⟩
          rw [List.cons_append] at hs
          cases hs
          exact ⟨s, rfl, h⟩
      · rw [if_neg hdc]
        simp only [Option.isSome_none, Bool.false_eq_true, false_iff]
        rintro ⟨s, hs, _⟩
        rw [List.cons_append] at hs
        cases hs
        exact hdc rfl

theorem rmatch_lits_only_isSome (cs : Str) (s : Str) :
    (rmatch (litToks cs) s).isSome ↔ s = cs := by
  have h := rmatch_lits_isSome cs [] s
  rw [List.append_nil] at h
  rw [h]
  constructor
  · rintro ⟨t, rfl, ht⟩
    rw [rmatch_nil_isSome] at ht
    rw [ht, List.append_nil]
  · rintro rfl
    exact ⟨[], by simp, by rw [rmatch_nil_isSome]⟩

/-! ## The pipeline on colon-free, underscore-free patterns -/

theorem escapeRegex_append (x y : Str) :
    escapeRegex (x ++ y) = escapeRegex x ++ escapeRegex y := by
  induction x with
  | nil => rfl
  | cons c t ih => simp [escapeRegex, ih]

theorem escWild_cons (c : Char) (p : Str) :
    escapeRegex (substWildcards (c :: p)) =
      (if c = '*' then wildcardPlaceholder
       else if isEscapable c then ['\\', c] else [c]) ++
        escapeRegex (substWildcards p) := by
  show escapeRegex ((if c = '*' then wildcardPlaceholder else [c]) ++ substWildcards p) = _
  rw [escapeRegex_append]
  congr 1
  by_cases hc : c = '*'
  · subst hc
    decide
  · rw [if_neg hc, if_neg hc]
    show (if isEscapable c then ['\\', c] else [c]) ++ [] = _
    rw [List.append_nil]

theorem escWild_not_dollar (p : Str) (h : p ≠ []) :
    (escapeRegex (substWildcards p)).isEmpty = false ∧
      ¬((escapeRegex (substWildcards p)).head? = some '$') := by
  cases p with
  | nil => exact absurd rfl h
  | cons c rest =>
    rw [escWild_cons]
    by_cases hc : c = '*'
    · rw [if_pos hc]
      exact ⟨rfl, fun hd => absurd (Option.some.inj hd) (by decide)⟩
    · rw [if_neg hc]
      by_cases he : isEscapable c = true
      · rw [if_pos he]
        exact ⟨rfl, fun hd => absurd (Option.some.inj hd) (by decide)⟩
      · rw [if_neg he]
        refine ⟨rfl, fun hd => ?_⟩
        have hcd : c = '$' := Option.some.inj hd
        rw [hcd] at he
        exact he (by decide)

theorem colon_not_escWild : ∀ (p : Str), ':' ∉ p → ':' ∉ escapeRegex (substWildcards p)
  | [], _ => fun hm => absurd hm (by decide)
  | c :: rest, h => by
    rw [escWild_cons]
    intro hmem
    rcases List.mem_append.mp hmem with hm | hm
    · revert hm
      by_cases hc : c = '*'
      · rw [if_pos hc]
        exact fun hm => absurd hm (by decide)
      · rw [if_neg hc]
        by_cases he : isEscapable c = true
        · rw [if_pos he]
          intro hm
          rcases List.mem_cons.mp hm with e | e
          · exact absurd e (by decide)
          · rcases List.mem_cons.mp e with e2 | e2
            · exact h (List.mem_cons.mpr (Or.inl e2))
            · exact absurd e2 (by decide)
        · rw [if_neg he]
          intro hm
          rcases List.mem_cons.mp hm with e | e
          · exact h (List.mem_cons.mpr (Or.inl e))
          · exact absurd e (by decide)
    · exact colon_not_escWild rest (fun hm2 => h (List.mem_cons_of_mem _ hm2)) hm

theorem substParamsGo_id : ∀ (fuel : Nat) (s : Str), ':' ∉ s → substParamsGo fuel s = s
  | 0, _, _ => rfl
  | _ + 1, [], _ => rfl
  | fuel + 1, c :: cs, h => by
    have hc : c ≠ ':' := fun e => h (List.mem_cons.mpr (Or.inl e.symm))
    simp only [substParamsGo]
    rw [if_neg hc]
    exact congrArg (c :: ·) (substParamsGo_id fuel cs (fun hm => h (List.mem_cons_of_mem _ hm)))

theorem isPrefixOf_append (l x : Str) : l.isPrefixOf (l ++ x) = true := by
  induction l with
  | nil => simp [List.isPrefixOf]
  | cons c t ih =>
    show ((c == c) && t.isPrefixOf (t ++ x)) = true
    rw [beq_self_eq_true, ih]
    rfl

theorem placeholder_isPrefixOf_false (d : Char) (x : Str) (h : d ≠ '_') :
    wildcardPlaceholder.isPrefixOf (d :: x) = false := by
  have hbeq : ('_' == d) = false := beq_eq_false_iff_ne.mpr (fun e => h e.symm)
  show (('_' == d) && ("_WILDCARD__".data.isPrefixOf x)) = false
  rw [hbeq, Bool.false_and]

theorem substPlaceholdersGo_nil (fuel : Nat) : substPlaceholdersGo fuel [] = [] := by
  cases fuel <;> rfl

theorem substPlaceholdersGo_step_wild (f : Nat) (x : Str) :
    substPlaceholdersGo (f + 1) (wildcardPlaceholder ++ x) =
      (if x.isEmpty || x.head? = some '$' then ".*".data else "[^/]+".data) ++
        substPlaceholdersGo f x := by
  have hx : wildcardPlaceholder ++ x = '_' :: ("_WILDCARD__".data ++ x) := rfl
  have hpre : wildcardPlaceholder.isPrefixOf ('_' :: ("_WILDCARD__".data ++ x)) = true :=
    isPrefixOf_append wildcardPlaceholder x
  have hd : ('_' :: ("_WILDCARD__".data ++ x)).drop wildcardPlaceholder.length = x := rfl
  rw [hx]
  simp only [substPlaceholdersGo]
  rw [if_pos hpre, hd]

theorem substPlaceholdersGo_step_lit (f : Nat) (d : Char) (x : Str) (h : d ≠ '_') :
    substPlaceholdersGo (f + 1) (d :: x) = d :: substPlaceholdersGo f x := by
  simp only [substPlaceholdersGo]
  rw [placeholder_isPrefixOf_false d x h]
  rfl

theorem wildStr_star_nil : wildStr ['*'] = ".*".data := by decide

theorem wildStr_cons_star_ne (rest : Str) (h : rest ≠ []) :
    wildStr ('*' :: rest) = "[^/]+".data ++ wildStr rest := by
  have hie : rest.isEmpty = false := List.isEmpty_eq_false.mpr h
  simp [wildStr, hie]

theorem wildStr_cons_esc (c : Char) (rest : Str) (hc : c ≠ '*') (he : isEscapable c = true) :
    wildStr (c :: rest) = '\\' :: c :: wildStr rest := by
  simp [wildStr, hc, he]

theorem wildStr_cons_plain (c : Char) (rest : Str) (hc : c ≠ '*') (he : isEscapable c = false) :
    wildStr (c :: rest) = c :: wildStr rest := by
  simp [wildStr, hc, he]

theorem wildTokens_star_nil : wildTokens ['*'] = [RTok.star] := by decide

theorem wildTokens_cons_star_ne (rest : Str) (h : rest ≠ []) :
    wildTokens ('*' :: rest) = RTok.nonSlash :: wildTokens rest := by
  have hie : rest.isEmpty = false := List.isEmpty_eq_false.mpr h
  simp [wildTokens, hie]

theorem wildTokens_cons_ne (c : Char) (rest : Str) (hc : c ≠ '*') :
    wildTokens (c :: rest) = RTok.lit c :: wildTokens rest := by
  simp [wildTokens, hc]

theorem substPlaceholdersGo_escWild :
    ∀ (p : Str) (fuel : Nat), '_' ∉ p →
      (escapeRegex (substWildcards p)).length ≤ fuel →
      substPlaceholdersGo fuel (escapeRegex (substWildcards p)) = wildStr p
  | [], fuel, _, _ => by
    show substPlaceholdersGo fuel [] = []
    exact substPlaceholdersGo_nil fuel
  | c :: rest, fuel, h, hlen => by
    have hrest : '_' ∉ rest := fun hm => h (List.mem_cons_of_mem _ hm)
    by_cases hcstar : c = '*'
    · subst hcstar
      have hEc : escapeRegex (substWildcards ('*' :: rest)) =
          wildcardPlaceholder ++ escapeRegex (substWildcards rest) := by
        rw [escWild_cons]
        rfl
      rw [hEc] at hlen ⊢
      rw [List.length_append] at hlen
      have hpl : wildcardPlaceholder.length = 12 := by decide
      rw [hpl] at hlen
      cases fuel with
      | zero => omega
      | succ f =>
        rw [substPlaceholdersGo_step_wild]
        by_cases hre : rest = []
        · subst hre
          have hx : escapeRegex (substWildcards ([] : Str)) = [] := rfl
          rw [hx, substPlaceholdersGo_nil]
          decide
        · obtain ⟨hne, hdol⟩ := escWild_not_dollar rest hre
          rw [hne, decide_eq_false hdol]
          simp only [Bool.or_self]
          rw [if_neg Bool.false_ne_true]
          rw [wildStr_cons_star_ne rest hre]
          exact congrArg ("[^/]+".data ++ ·)
            (substPlaceholdersGo_escWild rest f hrest (by omega))
    · have hcu : c ≠ '_' := fun e => h (List.mem_cons.mpr (Or.inl e.symm))
      by_cases he : isEscapable c = true
      · have hEc : escapeRegex (substWildcards (c :: rest)) =
            '\\' :: c :: escapeRegex (substWildcards rest) := by
          rw [escWild_cons, if_neg hcstar, if_pos he]
          rfl
        rw [hEc] at hlen ⊢
        rw [List.length_cons, List.length_cons] at hlen
        cases fuel with
        | zero => omega
        | succ f =>
          cases f with
          | zero => omega
          | succ f2 =>
            rw [substPlaceholdersGo_step_lit (f2 + 1) '\\' _ (by decide)]
            rw [substPlaceholdersGo_step_lit f2 c _ hcu]
            rw [wildStr_cons_esc c rest hcstar he]
            exact congrArg ('\\' :: ·) (congrArg (c :: ·)
              (substPlaceholdersGo_escWild rest f2 hrest (by omega)))
      · have he' : isEscapable c = false := by
          revert he
          cases isEscapable c <;> simp
        have hEc : escapeRegex (substWildcards (c :: rest)) =
            c :: escapeRegex (substWildcards rest) := by
          rw [escWild_cons, if_neg hcstar, if_neg he]
          rfl
        rw [hEc] at hlen ⊢
        rw [List.length_cons] at hlen
        cases fuel with
        | zero => omega
        | succ f =>
          rw [substPlaceholdersGo_step_lit f c _ hcu]
          rw [wildStr_cons_plain c rest hcstar he']
          exact congrArg (c :: ·) (substPlaceholdersGo_escWild rest f hrest (by omega))

theorem regexStr_noColon (p : Str) (h1 : ':' ∉ p) (h2 : '_' ∉ p) :
    regexStr p = wildStr p := by
  show substPlaceholders (substParams (escapeRegex (substWildcards p))) = wildStr p
  rw [substParams, substParamsGo_id _ _ (colon_not_escWild p h1)]
  show substPlaceholdersGo (escapeRegex (substWildcards p)).length
      (escapeRegex (substWildcards p)) = wildStr p
  exact substPlaceholdersGo_escWild p _ h2 (Nat.le_refl _)

theorem plain_char_facts (c : Char) (he : isEscapable c = false) (hs : c ≠ '*') :
    c ≠ '\\' ∧ c ≠ '(' ∧ c ≠ '[' ∧ c ≠ '.' ∧ isBareSpecial c = false := by
  refine ⟨fun e => ?_, fun e => ?_, fun e => ?_, fun e => ?_, ?_⟩
  · rw [e] at he; exact absurd he (by decide)
  · rw [e] at he; exact absurd he (by decide)
  · rw [e] at he; exact absurd he (by decide)
  · rw [e] at he; exact absurd he (by decide)
  · cases hb : isBareSpecial c
    · rfl
    · exfalso
      rw [isBareSpecial] at hb
      simp only [Bool.or_eq_true, decide_eq_true_eq] at hb
      rcases hb with ((((((e | e) | e) | e) | e) | e) | e) <;>
        first
          | exact hs e
          | (rw [e] at he; exact absurd he (by decide))

theorem parseTokensGo_esc_step (f : Nat) (c : Char) (x : Str) :
    parseTokensGo (f + 1) ('\\' :: c :: x) = (parseTokensGo f x).map (RTok.lit c :: ·) := rfl

theorem parseTokensGo_nonSlash_step (f : Nat) (x : Str) :
    parseTokensGo (f + 1) ('[' :: ("^/]+".data ++ x)) =
      (parseTokensGo f x).map (RTok.nonSlash :: ·) := by
  have e1 : ('[' : Char) ≠ '\\' := by decide
  have e2 : ('[' : Char) ≠ '(' := by decide
  have hpre : (['^', '/', ']', '+'] : Str).isPrefixOf ((['^', '/', ']', '+'] : Str) ++ x) =
      true := isPrefixOf_append _ _
  have hd : ((['^', '/', ']', '+'] : Str) ++ x).drop 4 = x := rfl
  simp only [parseTokensGo]
  rw [if_neg e1, if_neg e2, if_pos (trivial : True), if_pos hpre, hd]

theorem parseTokensGo_lit_step (f : Nat) (c : Char) (x : Str)
    (h1 : c ≠ '\\') (h2 : c ≠ '(') (h3 : c ≠ '[') (h4 : c ≠ '.')
    (h5 : isBareSpecial c = false) :
    parseTokensGo (f + 1) (c :: x) = (parseTokensGo f x).map (RTok.lit c :: ·) := by
  have h5' : ¬(isBareSpecial c = true) := by
    rw [h5]
    exact Bool.false_ne_true
  simp only [parseTokensGo]
  rw [if_neg h1, if_neg h2, if_neg h3, if_neg h4, if_neg h5']

theorem parseTokensGo_wildStr :
    ∀ (p : Str) (fuel : Nat), (wildStr p).length < fuel →
      parseTokensGo fuel (wildStr p) = some (wildTokens p)
  | [], fuel, hf => by
    cases fuel with
    | zero => omega
    | succ f => rfl
  | c :: rest, fuel, hf => by
    by_cases hcstar : c = '*'
    · subst hcstar
      by_cases hre : rest = []
      · subst hre
        have h2 : (wildStr ['*']).length = 2 := by decide
        rw [h2] at hf
        cases fuel with
        | zero => omega
        | succ f =>
          cases f with
          | zero => omega
          | succ f2 =>
            rw [wildStr_star_nil, wildTokens_star_nil]
            rfl
      · rw [wildStr_cons_star_ne rest hre] at hf ⊢
        rw [wildTokens_cons_star_ne rest hre]
        rw [List.length_append] at hf
        have h5 : ("[^/]+".data).length = 5 := by decide
        rw [h5] at hf
        cases fuel with
        | zero => omega
        | succ f =>
          have hx : "[^/]+".data ++ wildStr rest = '[' :: ("^/]+".data ++ wildStr rest) := rfl
          rw [hx, parseTokensGo_nonSlash_step]
          rw [parseTokensGo_wildStr rest f (by omega)]
          rfl
    · have hlit : wildTokens (c :: rest) = RTok.lit c :: wildTokens rest :=
        wildTokens_cons_ne c rest hcstar
      by_cases he : isEscapable c = true
      · rw [wildStr_cons_esc c rest hcstar he] at hf ⊢
        rw [hlit]
        rw [List.length_cons, List.length_cons] at hf
        cases fuel with
        | zero => omega
        | succ f =>
          rw [parseTokensGo_esc_step]
          rw [parseTokensGo_wildStr rest f (by omega)]
          rfl
      · have he' : isEscapable c = false := by
          revert he
          cases isEscapable c <;> simp
        rw [wildStr_cons_plain c rest hcstar he'] at hf ⊢
        rw [hlit]
        rw [List.length_cons] at hf
        obtain ⟨e1, e2, e3, e4, e5⟩ := plain_char_facts c he' hcstar
        cases fuel with
        | zero => omega
        | succ f =>
          rw [parseTokensGo_lit_step f c (wildStr rest) e1 e2 e3 e4 e5]
          rw [parseTokensGo_wildStr rest f (by omega)]
          rfl

theorem groupNames_cons_lit (c : Char) (ts : List RTok) :
    groupNames (RTok.lit c :: ts) = groupNames ts := rfl

theorem groupNames_cons_star (ts : List RTok) :
    groupNames (RTok.star :: ts) = groupNames ts := rfl

theorem groupNames_cons_nonSlash (ts : List RTok) :
    groupNames (RTok.nonSlash :: ts) = groupNames ts := rfl

theorem groupNames_wildTokens (p : Str) : groupNames (wildTokens p) = [] := by
  induction p with
  | nil => rfl
  | cons c rest ih =>
    simp only [wildTokens]
    split_ifs <;>
      simp only [groupNames_cons_star, groupNames_cons_nonSlash, groupNames_cons_lit, ih]

theorem patternToRegex_noColon (p : Str) (h1 : ':' ∉ p) (h2 : '_' ∉ p) :
    patternToRegex p = some (wildTokens p) := by
  have hnd : (groupNames (wildTokens p)).Nodup := by
    rw [groupNames_wildTokens]
    exact List.nodup_nil
  show (match parseTokens (regexStr p) with
    | none => none
    | some ts => if (groupNames ts).Nodup then some ts else none) = some (wildTokens p)
  rw [parseTokens, regexStr_noColon p h1 h2,
    parseTokensGo_wildStr p ((wildStr p).length + 1) (Nat.lt_succ_self _)]
  exact if_pos hnd

theorem wildTokens_no_star : ∀ (b : Str), '*' ∉ b → wildTokens b = litToks b
  | [], _ => rfl
  | c :: rest, h => by
    have hc : c ≠ '*' := fun e => h (List.mem_cons.mpr (Or.inl e.symm))
    rw [wildTokens_cons_ne c rest hc,
      wildTokens_no_star rest (fun hm => h (List.mem_cons_of_mem _ hm))]
    rfl

theorem wildTokens_trailing : ∀ (a : Str), '*' ∉ a →
    wildTokens (a ++ ['*']) = litToks a ++ [RTok.star]
  | [], _ => by decide
  | c :: rest, h => by
    have hc : c ≠ '*' := fun e => h (List.mem_cons.mpr (Or.inl e.symm))
    rw [List.cons_append, wildTokens_cons_ne c _ hc,
      wildTokens_trailing rest (fun hm => h (List.mem_cons_of_mem _ hm))]
    rfl

theorem wildTokens_middle : ∀ (a b : Str), '*' ∉ a → '*' ∉ b → b ≠ [] →
    wildTokens (a ++ '*' :: b) = litToks a ++ RTok.nonSlash :: litToks b
  | [], b, _, hb, hbne => by
    rw [List.nil_append, wildTokens_cons_star_ne b hbne, wildTokens_no_star b hb]
    rfl
  | c :: rest, b, ha, hb, hbne => by
    have hc : c ≠ '*' := fun e => ha (List.mem_cons.mpr (Or.inl e.symm))
    rw [List.cons_append, wildTokens_cons_ne c _ hc,
      wildTokens_middle rest b (fun hm => ha (List.mem_cons_of_mem _ hm)) hb hbne]
    rfl

theorem not_mem_append_single {x c : Char} {a : Str} (hx : x ≠ c) (ha : x ∉ a) :
    x ∉ a ++ [c] := by
  intro hm
  rcases List.mem_append.mp hm with h | h
  · exact ha h
  · exact hx (List.mem_singleton.mp h)

theorem not_mem_append_cons {x c : Char} {a b : Str} (hx : x ≠ c) (ha : x ∉ a)
    (hb : x ∉ b) : x ∉ a ++ c :: b := by
  intro hm
  rcases List.mem_append.mp hm with h | h
  · exact ha h
  · rcases List.mem_cons.mp h with e | e
    · exact hx e
    · exact hb e

/-- A trailing `*` (compiled to `.*`, with no `s` flag) matches any
remainder made of non-line-terminator characters, slashes included: for
every wildcard-free stem `a` (also free of `:` and `_`, so no other
construct fires) and every remainder `s`, the pattern `a*` matches
`a ++ s` exactly when `s` contains no line terminator. -/
theorem matchPath_trailing_star (a s : Str) (h1 : ':' ∉ a) (h2 : '*' ∉ a)
    (h3 : '_' ∉ a) :
    matchPath (a ++ ['*']) (a ++ s) = some (s.all fun c => !isLineTerm c) := by
  by_cases heq : a ++ ['*'] = a ++ s
  · have hs : s = ['*'] := (List.append_cancel_left heq).symm
    subst hs
    rw [matchPath, if_pos heq]
    rfl
  · rw [matchPath, if_neg heq]
    have hstar : (a ++ ['*']).contains '*' = true := by simp
    have hct : ((a ++ ['*']).contains ':' || (a ++ ['*']).contains '*') = true := by
      rw [hstar, Bool.or_true]
    rw [if_pos hct]
    have hp : patternToRegex (a ++ ['*']) = some (litToks a ++ [RTok.star]) := by
      rw [patternToRegex_noColon (a ++ ['*'])
          (not_mem_append_single (by decide) h1)
          (not_mem_append_single (by decide) h3),
        wildTokens_trailing a h2]
    rw [hp, Option.map_some', rmatch_lits_append]
    congr 1
    rw [Bool.eq_iff_iff, rmatch_star_isSome]
    constructor
    · rintro ⟨k, hk, hall, hm⟩
      rw [rmatch_nil_isSome] at hm
      have hk2 : k = s.length := by
        have hlen := congrArg List.length hm
        rw [List.length_drop] at hlen
        simp at hlen
        omega
      subst hk2
      rw [List.take_length] at hall
      exact hall
    · intro hall
      exact ⟨s.length, Nat.le_refl _, by rw [List.take_length]; exact hall,
        by rw [List.drop_length, rmatch_nil_isSome]⟩

/-- A non-final `*` (compiled to `[^/]+`) matches exactly one nonempty
slash-free path segment: with wildcard-, colon- and underscore-free `a` and
`b` (`b` nonempty), the pattern `a*b` matches `a ++ s ++ b` exactly when the
segment `s` is nonempty and slash-free. -/
theorem matchPath_middle_star (a b s : Str)
    (ha1 : ':' ∉ a) (ha2 : '*' ∉ a) (ha3 : '_' ∉ a)
    (hb1 : ':' ∉ b) (hb2 : '*' ∉ b) (hb3 : '_' ∉ b) (hbne : b ≠ []) :
    matchPath (a ++ '*' :: b) (a ++ (s ++ b)) =
      some (!s.isEmpty && s.all (· != '/')) := by
  by_cases heq : a ++ '*' :: b = a ++ (s ++ b)
  · have h1 : '*' :: b = s ++ b := List.append_cancel_left heq
    have hs : s = ['*'] := by
      have h2 : ['*'] ++ b = s ++ b := h1
      exact (List.append_cancel_right h2).symm
    subst hs
    rw [matchPath, if_pos heq]
    rfl
  · rw [matchPath, if_neg heq]
    have hstar : (a ++ '*' :: b).contains '*' = true := by simp
    have hct : ((a ++ '*' :: b).contains ':' || (a ++ '*' :: b).contains '*') = true := by
      rw [hstar, Bool.or_true]
    rw [if_pos hct]
    have hp : patternToRegex (a ++ '*' :: b) =
        some (litToks a ++ RTok.nonSlash :: litToks b) := by
      rw [patternToRegex_noColon (a ++ '*' :: b)
          (not_mem_append_cons (by decide) ha1 hb1)
          (not_mem_append_cons (by decide) ha3 hb3),
        wildTokens_middle a b ha2 hb2 hbne]
    rw [hp, Option.map_some', rmatch_lits_append]
    congr 1
    rw [Bool.eq_iff_iff, rmatch_nonSlash_isSome]
    have hlen : (s ++ b).length = s.length + b.length := List.length_append s b
    have hbpos : 0 < b.length := List.length_pos.mpr hbne
    constructor
    · rintro ⟨k, hk1, hk, hall, hm⟩
      rw [rmatch_lits_only_isSome] at hm
      have hdroplen : ((s ++ b).drop k).length = b.length := by rw [hm]
      rw [List.length_drop, hlen] at hdroplen
      have hks : k = s.length := by omega
      subst hks
      rw [List.take_left] at hall
      have hne : s.isEmpty = false := by
        rw [List.isEmpty_eq_false]
        intro hnil
        rw [hnil] at hk1
        exact absurd hk1 (by decide)
      rw [hne, hall]
      rfl
    · intro hcond
      rcases Bool.and_eq_true_iff.mp hcond with ⟨hne, hall⟩
      rw [Bool.not_eq_true', List.isEmpty_eq_false] at hne
      refine ⟨s.length, ?_, ?_, ?_, ?_⟩
      · have := List.length_pos.mpr hne
        omega
      · rw [hlen]; omega
      · rw [List.take_left]; exact hall
      · rw [List.drop_left, rmatch_lits_only_isSome]


/-! ## The pipeline on patterns with one parameter or a literal colon -/

/-- C1 counterexample: contrary to the claim, a trailing `*` does *not*
match the entire remainder of the path.  The compiled `.*` carries no `s`
flag, so `.` excludes line terminators, and `matchPath('/api/*',
'/api/a\nb')` is `false` although `a\nb` is a remainder of the path. -/
theorem claim_C1_counterexample :
    matchPath "/api/*".data "/api/a\nb".data = some false := by decide

/-- C1 as amended: for every pattern built from a wildcard-free stem (also
free of `:` and `_`, so no other construct of the pipeline fires), a `*`
that ends the pattern greedily matches any remainder of the path made of
non-line-terminator characters — slashes included, but not `\n`, `\r`,
U+2028 or U+2029, which `.` excludes without the `s` flag — while a
non-final `*` (compiled to `[^/]+`, which excludes only `/`) matches
exactly one nonempty slash-free path segment, line terminators allowed;
in particular `matchPath('/api/*', '/api/users/123')` is true,
`matchPath('/api/*/users', '/api/v1/users')` is true,
`matchPath('/api/*/users', '/api/v1/v2/users')` is false and
`matchPath('/api/*/users', '/api/a\nb/users')` is true. -/
theorem claim_C1 :
    (∀ a s : Str, ':' ∉ a → '*' ∉ a → '_' ∉ a →
      matchPath (a ++ ['*']) (a ++ s) = some (s.all fun c => !isLineTerm c)) ∧
    (∀ a b s : Str, ':' ∉ a → '*' ∉ a → '_' ∉ a →
      ':' ∉ b → '*' ∉ b → '_' ∉ b → b ≠ [] →
      matchPath (a ++ '*' :: b) (a ++ (s ++ b)) =
        some (!s.isEmpty && s.all (· != '/'))) ∧
    matchPath "/api/*".data "/api/users/123".data = some true ∧
    matchPath "/api/*/users".data "/api/v1/users".data = some true ∧
    matchPath "/api/*/users".data "/api/v1/v2/users".data = some false ∧
    matchPath "/api/*/users".data "/api/a\nb/users".data = some true :=
  ⟨matchPath_trailing_star, matchPath_middle_star, by decide, by decide, by decide,
    by decide⟩

/-- Witness for `claim_C1`: its two general clauses instantiated at the
stem `/api/` with remainder `users/123` (no line terminator), and at
`/api/` `*` `/users` with segment `v1`. -/
theorem claim_C1_witness :
    matchPath "/api/*".data ("/api/".data ++ "users/123".data) = some true ∧
    matchPath ("/api/".data ++ '*' :: "/users".data)
      ("/api/".data ++ ("v1".data ++ "/users".data)) = some true := by
  constructor
  · exact (claim_C1.1 "/api/".data "users/123".data (by decide) (by decide)
      (by decide)).trans (by decide)
  · exact (claim_C1.2.1 "/api/".data "/users".data "v1".data
      (by decide) (by decide) (by decide) (by decide) (by decide) (by decide)
      (by decide)).trans (by decide)

/-- C3 counterexample: compilation is *not* total.  The pattern `/:1`
produces the regex `^/(?<1>[^/]+)$`, whose capture-group name `1` is not
a valid identifier, so `new RegExp` throws a `SyntaxError`;
`matchPath('/:1', '/x')` therefore raises instead of returning a
boolean (`none` embeds the thrown exception). -/
theorem claim_C3_counterexample :
    matchPath "/:1".data "/x".data = none := by decide

/-- C3 as amended: matching and extraction can only raise via
`patternToRegex`; whenever the pattern compiles (its derived capture
group names are valid identifiers and pairwise distinct), `matchPath`
and `parsePathParams` never raise, for every path. -/
theorem claim_C3 (p q : Str) (h : (patternToRegex p).isSome = true) :
    (matchPath p q).isSome = true ∧ (parsePathParams p q).isSome = true := by
  obtain ⟨ts, hts⟩ := Option.isSome_iff_exists.mp h
  constructor
  · rw [matchPath]
    by_cases hpq : p = q
    · rw [if_pos hpq]; rfl
    · rw [if_neg hpq]
      by_cases hc : (p.contains ':' || p.contains '*') = true
      · rw [if_pos hc, hts]; rfl
      · rw [if_neg hc]; rfl
  · rw [parsePathParams]
    by_cases hc : p.contains ':' = true
    · rw [if_neg (by rw [hc]; decide), hts]
      rfl
    · have hc2 : p.contains ':' = false := by
        revert hc
        cases p.contains ':' <;> simp
      rw [if_pos (by rw [hc2]; decide)]
      rfl

/-- Witness for `claim_C3` at the pattern `/users/:id` and path `/users/5`. -/
theorem claim_C3_witness :
    (patternToRegex "/users/:id".data).isSome = true ∧
    (matchPath "/users/:id".data "/users/5".data).isSome = true ∧
    (parsePathParams "/users/:id".data "/users/5".data).isSome = true := by
  refine ⟨by decide, ?_, ?_⟩
  · exact (claim_C3 "/users/:id".data "/users/5".data (by decide)).1
  · exact (claim_C3 "/users/:id".data "/users/5".data (by decide)).2

/-- C4: a pattern containing neither `:` nor `*` matches exactly the
byte-identical path — no prefix matching, no trailing-slash
normalization. -/
theorem claim_C4 (p q : Str) (h1 : p.contains ':' = false)
    (h2 : p.contains '*' = false) :
    matchPath p q = some (decide (p = q)) := by
  rw [matchPath]
  by_cases hpq : p = q
  · rw [if_pos hpq]
    simp [hpq]
  · rw [if_neg hpq, h1, h2]
    simp [hpq]

/-- Witness for `claim_C4`: `/users` vs `/users/` (trailing slash is
significant), evaluated concretely. -/
theorem claim_C4_witness :
    ("/users".data.contains ':' = false) ∧ ("/users".data.contains '*' = false) ∧
    matchPath "/users".data "/users/".data = some false :=
  ⟨by decide, by decide,
    (claim_C4 "/users".data "/users/".data (by decide) (by decide)).trans (by decide)⟩

/-- Whenever the pattern compiles, `matchPath` cannot raise. -/
theorem matchPath_isSome_of_compile (p q : Str) (h : (patternToRegex p).isSome = true) :
    (matchPath p q).isSome = true := by
  obtain ⟨ts, hts⟩ := Option.isSome_iff_exists.mp h
  rw [matchPath]
  by_cases hpq : p = q
  · rw [if_pos hpq]; rfl
  · rw [if_neg hpq]
    by_cases hc : (p.contains ':' || p.contains '*') = true
    · rw [if_pos hc, hts]; rfl
    · rw [if_neg hc]; rfl

/-- The replay scan agrees with a plain first-match search whenever every
recorded path compiles. -/
theorem findRecording_eq_find? :
    ∀ (recs : List Recording) (request : IncomingRequest),
      (∀ r ∈ recs, (patternToRegex r.request.path).isSome = true) →
      findRecording recs request = some (recs.find? (replayMatches request))
  | [], _, _ => rfl
  | r :: rs, request, h => by
    have hp : (matchPath r.request.path request.path).isSome = true :=
      matchPath_isSome_of_compile _ _ (h r (List.mem_cons_self r rs))
    obtain ⟨b, hb⟩ := Option.isSome_iff_exists.mp hp
    have hmr : matchRequest r.request request =
        some ((r.request.method == request.method) && b) := by
      rw [matchRequest, hb, Option.map_some']
    have hrm : replayMatches request r = ((r.request.method == request.method) && b) := by
      rw [replayMatches, hb]
      cases b <;> simp
    by_cases hcond : ((r.request.method == request.method) && b) = true
    · simp only [findRecording, hmr, hcond]
      rw [List.find?_cons_of_pos _ (by rw [hrm]; exact hcond)]
    · have hcond' : ((r.request.method == request.method) && b) = false := by
        revert hcond
        cases ((r.request.method == request.method) && b) <;> simp
      simp only [findRecording, hmr, hcond']
      rw [List.find?_cons_of_neg _ (by rw [hrm]; exact hcond)]
      exact findRecording_eq_find? rs request fun x hx => h x (List.mem_cons_of_mem r hx)

/-- C6 as amended: provided every recorded path compiles, the handler
returned by `createReplayHandler` scans the recordings in insertion
order, matches by *exact* method string equality together with a path
pattern match, returns the first matching recording's response view
(status and body always; statusText and headers as recorded), and
returns an absent result — not an exception — when no recording
matches.  (Without the compilation proviso the handler can throw; see
the counterexample.) -/
theorem claim_C6 (s : Scenario) (request : IncomingRequest)
    (h : ∀ r ∈ s.recordings, (patternToRegex r.request.path).isSome = true) :
    createReplayHandler s request =
      some ((s.recordings.find? (replayMatches request)).map
        fun r => toReplayResponse r.response) := by
  rw [createReplayHandler, findRecording_eq_find? s.recordings request h, Option.map_some']

/-- C6 counterexample: a scenario holding a recording whose recorded path
`/:1` does not compile makes the handler *throw* (`none`) for a `GET`
request that matches no recording (the only recording is a `POST`) —
the claim requires an absent result instead.  `matchRequest` computes
the path match even though the methods already differ. -/
theorem claim_C6_counterexample :
    createReplayHandler c6BadScenario { method := "GET".data, path := "/x".data } =
      none := by rfl

/-- Witness for `claim_C6`: a request matching recording #2 where #1 does
not match returns recording #2's response view. -/
theorem claim_C6_witness :
    (∀ r ∈ c6Scenario.recordings, (patternToRegex r.request.path).isSome = true) ∧
    createReplayHandler c6Scenario c6Request =
      some (some (toReplayResponse c6Recording2.response)) :=
  ⟨by decide, (claim_C6 c6Scenario c6Request (by decide)).trans (by rfl)⟩

/-- The mock scan agrees with a plain first-match search whenever every
mock pattern compiles. -/
theorem findMatchingMock_eq_find? :
    ∀ (mocks : List Mock) (request : MockRequest),
      (∀ m ∈ mocks, (patternToRegex m.pattern).isSome = true) →
      findMatchingMock mocks request = some (mocks.find? (mockMatches request))
  | [], _, _ => rfl
  | m :: ms, request, h => by
    by_cases hmm : matchMethod m.method request.method = true
    · have hp : (matchPath m.pattern request.path).isSome = true :=
        matchPath_isSome_of_compile _ _ (h m (List.mem_cons_self m ms))
      obtain ⟨b, hb⟩ := Option.isSome_iff_exists.mp hp
      have hpm : mockMatches request m = b := by
        rw [mockMatches, hmm, hb]
        cases b <;> simp
      cases hbv : b with
      | true =>
        simp only [findMatchingMock, hmm, Bool.not_true, Bool.false_eq_true, if_false,
          hb, hbv]
        rw [List.find?_cons_of_pos _ (by rw [hpm, hbv])]
      | false =>
        simp only [findMatchingMock, hmm, Bool.not_true, Bool.false_eq_true, if_false,
          hb, hbv]
        rw [List.find?_cons_of_neg _ (by rw [hpm, hbv]; exact Bool.false_ne_true)]
        exact findMatchingMock_eq_find? ms request fun x hx => h x (List.mem_cons_of_mem m hx)
    · have hmm' : matchMethod m.method request.method = false := by
        revert hmm
        cases matchMethod m.method request.method <;> simp
      have hpm : mockMatches request m = false := by
        rw [mockMatches, hmm']
        rfl
      simp only [findMatchingMock, hmm', Bool.not_false, if_true]
      rw [List.find?_cons_of_neg _ (by rw [hpm]; exact Bool.false_ne_true)]
      exact findMatchingMock_eq_find? ms request fun x hx => h x (List.mem_cons_of_mem m hx)

/-- C7 as amended: provided every mock pattern compiles, `findMatchingMock`
returns the first mock in sequence order whose method matches
case-insensitively and whose pattern matches the request path, and an
absent result — not an exception — when no mock matches (in particular
for the empty sequence).  (Without the compilation proviso the lookup
can throw; see the counterexample.) -/
theorem claim_C7 (mocks : List Mock) (request : MockRequest)
    (h : ∀ m ∈ mocks, (patternToRegex m.pattern).isSome = true) :
    findMatchingMock mocks request = some (mocks.find? (mockMatches request)) :=
  findMatchingMock_eq_find? mocks request h

/-- C7 counterexample: a mock whose pattern `/:1` does not compile makes
`findMatchingMock` throw (`none`) on a method-matching request, where
the claim requires a mock or an absent result. -/
theorem claim_C7_counterexample :
    findMatchingMock [c7BadMock] c7BadRequest = none := by rfl

/-- Witness for `claim_C7`: the lowercase-`get` mock `c7Mock2` is found for
an uppercase-`GET` request, skipping the method-mismatched `c7Mock1`. -/
theorem claim_C7_witness :
    (∀ m ∈ c7Mocks, (patternToRegex m.pattern).isSome = true) ∧
    findMatchingMock c7Mocks c7Request = some (some c7Mock2) :=
  ⟨by decide, (claim_C7 c7Mocks c7Request (by decide)).trans (by rfl)⟩

/-- C8: `addRecordingToScenario` returns a new scenario whose recordings
are the old sequence with the new recording appended, whose `updatedAt`
is the (monotone) current time, and whose other fields are unchanged.
The input scenario is a value and is left unmodified — the embedding is
a pure function returning a fresh record, mirroring the source's spread
construction.  `Date.now()` is embedded as `now`, assumed at least the
prior `updatedAt` (the source reads a monotone wall clock after the
scenario's last update). -/
theorem claim_C8 (s : Scenario) (r : Recording) (now : Int) (h : s.updatedAt ≤ now) :
    (addRecordingToScenario s r now).recordings = s.recordings ++ [r] ∧
    (addRecordingToScenario s r now).recordings.length = s.recordings.length + 1 ∧
    s.updatedAt ≤ (addRecordingToScenario s r now).updatedAt ∧
    (addRecordingToScenario s r now).updatedAt = now ∧
    (addRecordingToScenario s r now).name = s.name ∧
    (addRecordingToScenario s r now).description = s.description ∧
    (addRecordingToScenario s r now).createdAt = s.createdAt :=
  ⟨rfl, by simp [addRecordingToScenario], h, rfl, rfl, rfl, rfl⟩

/-- Witness for `claim_C8` on a concrete scenario, recording, and clock. -/
theorem claim_C8_witness :
    c8Scenario.updatedAt ≤ 5 ∧
    ((addRecordingToScenario c8Scenario c8Recording 5).recordings =
        c8Scenario.recordings ++ [c8Recording] ∧
      (addRecordingToScenario c8Scenario c8Recording 5).recordings.length =
        c8Scenario.recordings.length + 1 ∧
      c8Scenario.updatedAt ≤ (addRecordingToScenario c8Scenario c8Recording 5).updatedAt ∧
      (addRecordingToScenario c8Scenario c8Recording 5).updatedAt = 5 ∧
      (addRecordingToScenario c8Scenario c8Recording 5).name = c8Scenario.name ∧
      (addRecordingToScenario c8Scenario c8Recording 5).description =
        c8Scenario.description ∧
      (addRecordingToScenario c8Scenario c8Recording 5).createdAt =
        c8Scenario.createdAt) :=
  ⟨by decide, claim_C8 c8Scenario c8Recording 5 (by decide)⟩

/-- C10: `findMatchingRecording` compares method and path by exact string
equality only — any returned recording has exactly the request's method
and path — so a recording stored under the pattern `/users/:id` is
*never* returned for the concrete path `/users/123`, although the
handler from `createReplayHandler` does return it for that path. -/
theorem claim_C10 :
    (∀ (s : Scenario) (request : RecordedRequest) (r : Recording),
      findMatchingRecording s request = some r →
      r.request.method = request.method ∧ r.request.path = request.path) ∧
    findMatchingRecording c10Scenario c10Request = none ∧
    createReplayHandler c10Scenario
        { method := c10Request.method, path := c10Request.path } =
      some (some (toReplayResponse c10Recording.response)) := by
  refine ⟨?_, by rfl, by rfl⟩
  intro s request r hfind
  have hpred := List.find?_some hfind
  rcases Bool.and_eq_true_iff.mp hpred with ⟨h1, h2⟩
  exact ⟨eq_of_beq h1, eq_of_beq h2⟩

/-- Witness for `claim_C10`: its universally quantified part applied to a
scenario whose recording is stored under the exact concrete path. -/
theorem claim_C10_witness :
    findMatchingRecording c10ExactScenario c10Request = some c10ExactRecording ∧
    (c10ExactRecording.request.method = c10Request.method ∧
      c10ExactRecording.request.path = c10Request.path) :=
  ⟨by rfl, claim_C10.1 c10ExactScenario c10Request c10ExactRecording (by rfl)⟩

/-! ## Claim C9: serialization round-trip.  Number lemmas. -/

theorem decDigit_spec (n : Nat) :
    (decDigit n).isDigit = true ∧ (decDigit n).toNat = 48 + n % 10 := by
  show (Char.ofNat (48 + n % 10)).isDigit = true ∧
    (Char.ofNat (48 + n % 10)).toNat = 48 + n % 10
  have h : n % 10 < 10 := Nat.mod_lt _ (by omega)
  generalize n % 10 = m at h ⊢
  interval_cases m <;> exact ⟨by decide, by decide⟩

theorem natChars_unfold (n : Nat) :
    natChars n =
      if n < 10 then [decDigit n] else natChars (n / 10) ++ [decDigit (n % 10)] := by
  conv_lhs => rw [natChars]

theorem natChars_ne_nil (n : Nat) : natChars n ≠ [] := by
  rw [natChars_unfold]
  split <;> simp

theorem natChars_all_digit (n : Nat) : ∀ c ∈ natChars n, c.isDigit = true := by
  induction n using Nat.strong_induction_on with
  | _ n ih =>
    rw [natChars_unfold]
    by_cases h10 : n < 10
    · rw [if_pos h10]
      intro c hc
      rw [List.mem_singleton] at hc
      subst hc
      exact (decDigit_spec n).1
    · rw [if_neg h10]
      intro c hc
      rcases List.mem_append.mp hc with h | h
      · exact ih (n / 10) (Nat.div_lt_self (by omega) (by omega)) c h
      · rw [List.mem_singleton] at h
        subst h
        exact (decDigit_spec (n % 10)).1

theorem natChars_head (n : Nat) :
    ∃ c t, natChars n = c :: t ∧ c.isDigit = true := by
  match h : natChars n with
  | [] => exact absurd h (natChars_ne_nil n)
  | c :: t =>
    exact ⟨c, t, rfl, natChars_all_digit n c (h ▸ List.mem_cons_self ..)⟩

theorem digitsVal_append_digit (ds : Str) (c : Char) :
    digitsVal (ds ++ [c]) = 10 * digitsVal ds + (c.toNat - 48) := by
  rw [digitsVal, digitsVal, List.foldl_append]
  simp [List.foldl]
  omega

theorem digitsVal_natChars (n : Nat) : digitsVal (natChars n) = n := by
  induction n using Nat.strong_induction_on with
  | _ n ih =>
    rw [natChars_unfold]
    by_cases h10 : n < 10
    · rw [if_pos h10]
      show digitsVal [decDigit n] = n
      have hd := (decDigit_spec n).2
      rw [digitsVal]
      simp only [List.foldl]
      omega
    · rw [if_neg h10, digitsVal_append_digit,
        ih (n / 10) (Nat.div_lt_self (by omega) (by omega))]
      have hd := (decDigit_spec (n % 10)).2
      omega

theorem takeDigitRun_stop (s : Str) (h : noDigitHead s = true) :
    takeDigitRun s = ([], s) := by
  cases s with
  | nil => rfl
  | cons c t =>
    simp only [noDigitHead, Bool.not_eq_true'] at h
    simp [takeDigitRun, h]

theorem takeDigitRun_append (ds : Str) (hds : ∀ c ∈ ds, c.isDigit = true)
    (rest : Str) (hrest : noDigitHead rest = true) :
    takeDigitRun (ds ++ rest) = (ds, rest) := by
  induction ds with
  | nil =>
    rw [List.nil_append]
    exact takeDigitRun_stop rest hrest
  | cons c t ih =>
    have hc : c.isDigit = true := hds c (List.mem_cons_self ..)
    have ht := ih fun x hx => hds x (List.mem_cons_of_mem _ hx)
    simp [takeDigitRun, hc, ht]

theorem parseJsonNat_print (n : Nat) (rest : Str) (h : noDigitHead rest = true) :
    parseJsonNat (natChars n ++ rest) = some (n, rest) := by
  rw [parseJsonNat]
  simp only [takeDigitRun_append _ (natChars_all_digit n) _ h]
  rw [if_neg (by simp [natChars_ne_nil n]), digitsVal_natChars]

theorem parseJsonInt_print (i : Int) (rest : Str) (h : noDigitHead rest = true) :
    parseJsonInt (intChars i ++ rest) = some (i, rest) := by
  by_cases hneg : i < 0
  · have harg : intChars i ++ rest = '-' :: (natChars i.natAbs ++ rest) := by
      rw [intChars, if_pos hneg]
      rfl
    rw [harg, parseJsonInt,
      if_pos (show ('-' :: (natChars i.natAbs ++ rest)).head? = some '-' from rfl),
      List.tail_cons, parseJsonNat_print _ _ h, Option.map_some']
    have hv : -(i.natAbs : Int) = i := by omega
    rw [hv]
  · obtain ⟨c, t, hct, hc⟩ := natChars_head i.natAbs
    have hi : intChars i = natChars i.natAbs := by rw [intChars, if_neg hneg]
    have hcm : c ≠ '-' := by
      intro e
      subst e
      exact absurd hc (by decide)
    have hh : (natChars i.natAbs ++ rest).head? = some c := by
      rw [hct]
      rfl
    rw [hi, parseJsonInt,
      if_neg (by rw [hh]; intro e; exact hcm (Option.some.inj e)),
      parseJsonNat_print _ _ h, Option.map_some']
    have hv : (i.natAbs : Int) = i := by omega
    rw [hv]

/-- A digit begins no keyword, string, bracket, brace, sign, or whitespace,
and closes nothing. -/
theorem digit_char_props (c : Char) (h : c.isDigit = true) :
    isJsonWs c = false ∧ c ≠ '"' ∧ c ≠ '[' ∧ c ≠ '\x7b' ∧ c ≠ 'n' ∧ c ≠ 't' ∧
    c ≠ 'f' ∧ c ≠ ']' ∧ c ≠ '\x7d' ∧ c ≠ ',' := by
  have hjw : isJsonWs c = false := by
    cases hw : isJsonWs c
    · rfl
    · rw [isJsonWs] at hw
      simp only [Bool.or_eq_true, decide_eq_true_eq] at hw
      rcases hw with ((e | e) | e) | e <;> (subst e; exact absurd h (by decide))
  refine ⟨hjw, ?_, ?_, ?_, ?_, ?_, ?_, ?_, ?_, ?_⟩ <;>
    (intro e; subst e; exact absurd h (by decide))

/-! ## String printing/parsing lemmas -/

theorem parseHexDigit_toLowerHexDigit (k : Nat) (h : k < 16) :
    parseHexDigit (toLowerHexDigit k) = some k := by
  interval_cases k <;> decide

theorem parseStrBody_escape (c : Char) (rest : Str) :
    parseStrBody (escapeJsonChar c ++ rest) =
      (parseStrBody rest).map fun p => (c :: p.1, p.2) := by
  rw [escapeJsonChar]
  split_ifs with h1 h2 h3 h4 h5 h6 h7 h8
  · subst h1; rw [parseStrBody.eq_def]; simp +decide [unescapeJson]
  · subst h2; rw [parseStrBody.eq_def]; simp +decide [unescapeJson]
  · subst h3; rw [parseStrBody.eq_def]; simp +decide [unescapeJson]
  · subst h4; rw [parseStrBody.eq_def]; simp +decide [unescapeJson]
  · subst h5; rw [parseStrBody.eq_def]; simp +decide [unescapeJson]
  · subst h6; rw [parseStrBody.eq_def]; simp +decide [unescapeJson]
  · subst h7; rw [parseStrBody.eq_def]; simp +decide [unescapeJson]
  · have hhi : parseHexDigit (toLowerHexDigit (c.toNat / 16)) = some (c.toNat / 16) :=
      parseHexDigit_toLowerHexDigit _ (by omega)
    have hlo : parseHexDigit (toLowerHexDigit (c.toNat % 16)) = some (c.toNat % 16) :=
      parseHexDigit_toLowerHexDigit _ (Nat.mod_lt _ (by omega))
    have hch : Char.ofNat (c.toNat / 16 * 16 + c.toNat % 16) = c := by
      have hx : c.toNat / 16 * 16 + c.toNat % 16 = c.toNat := by omega
      rw [hx, Char.ofNat_toNat]
    have h0 : parseHexDigit '0' = some 0 := by decide
    rw [parseStrBody.eq_def]
    simp +decide [h0, hhi, hlo, hch]
  · rw [parseStrBody.eq_def]
    simp [h1, h2, h8]

theorem parseStrBody_quoted (s rest : Str) :
    parseStrBody (escapeBody s ++ '"' :: rest) = some (s, rest) := by
  induction s with
  | nil =>
    show parseStrBody ('"' :: rest) = _
    rw [parseStrBody.eq_def]
    simp
  | cons c cs ih =>
    show parseStrBody ((escapeJsonChar c ++ escapeBody cs) ++ '"' :: rest) = _
    rw [List.append_assoc, parseStrBody_escape, ih, Option.map_some']

/-! ## Whitespace and head-shape lemmas -/

theorem skipJsonWs_cons_ws (c : Char) (s : Str) (h : isJsonWs c = true) :
    skipJsonWs (c :: s) = skipJsonWs s := by
  simp [skipJsonWs, h]

theorem skipJsonWs_cons_nws (c : Char) (s : Str) (h : isJsonWs c = false) :
    skipJsonWs (c :: s) = c :: s := by
  simp [skipJsonWs, h]

theorem skipJsonWs_replicate_space (n : Nat) (s : Str) :
    skipJsonWs (List.replicate n ' ' ++ s) = skipJsonWs s := by
  induction n with
  | zero => rfl
  | succ k ih =>
    rw [List.replicate_succ, List.cons_append, skipJsonWs_cons_ws _ _ (by decide)]
    exact ih

theorem skipJsonWs_indent (d : Nat) (s : Str) :
    skipJsonWs (indentChars d ++ s) = skipJsonWs s :=
  skipJsonWs_replicate_space _ _

theorem skipJsonWs_newline (s : Str) : skipJsonWs ('\n' :: s) = skipJsonWs s :=
  skipJsonWs_cons_ws _ _ (by decide)

/-- Every printed value starts with a non-whitespace character that closes
neither an array nor an object. -/
theorem jprint_head (d : Nat) (v : Json) :
    ∃ c t, jprint d v = c :: t ∧ (isJsonWs c = false ∧ c ≠ ']' ∧ c ≠ '\x7d') := by
  cases v with
  | null => exact ⟨'n', _, rfl, by decide⟩
  | bool b => cases b with
    | false => exact ⟨'f', _, rfl, by decide⟩
    | true => exact ⟨'t', _, rfl, by decide⟩
  | str s => exact ⟨'"', _, rfl, by decide⟩
  | num n =>
    by_cases hneg : n < 0
    · refine ⟨'-', natChars n.natAbs, ?_, by decide⟩
      show intChars n = _
      rw [intChars, if_pos hneg]
    · obtain ⟨c, t, hct, hc⟩ := natChars_head n.natAbs
      obtain ⟨hws, _, _, _, _, _, _, hbr, hbc, _⟩ := digit_char_props c hc
      refine ⟨c, t, ?_, hws, hbr, hbc⟩
      show intChars n = c :: t
      rw [intChars, if_neg hneg, hct]
  | arr items => cases items with
    | nil => exact ⟨'[', _, rfl, by decide⟩
    | cons v vs => exact ⟨'[', _, rfl, by decide⟩
  | obj fields => cases fields with
    | nil => exact ⟨'\x7b', _, rfl, by decide⟩
    | cons f fs => exact ⟨'\x7b', _, rfl, by decide⟩

/-- A printed value is nonempty. -/
theorem jprint_length_pos (d : Nat) (v : Json) : 1 ≤ (jprint d v).length := by
  obtain ⟨c, t, hct, _⟩ := jprint_head d v
  rw [hct]
  simp

/-! ## Parser congruence under leading whitespace -/

theorem parseJsonValue_congr (f : Nat) (s₁ s₂ : Str)
    (h : skipJsonWs s₁ = skipJsonWs s₂) :
    parseJsonValue f s₁ = parseJsonValue f s₂ := by
  cases f with
  | zero => rfl
  | succ f => simp only [parseJsonValue, h]

theorem parseJsonItems_congr (f : Nat) (s₁ s₂ : Str)
    (h : skipJsonWs s₁ = skipJsonWs s₂) :
    parseJsonItems f s₁ = parseJsonItems f s₂ := by
  cases f with
  | zero => rfl
  | succ f =>
    simp only [parseJsonItems]
    rw [parseJsonValue_congr f s₁ s₂ h]

theorem parseJsonFields_congr (f : Nat) (s₁ s₂ : Str)
    (h : skipJsonWs s₁ = skipJsonWs s₂) :
    parseJsonFields f s₁ = parseJsonFields f s₂ := by
  cases f with
  | zero => rfl
  | succ f => simp only [parseJsonFields, h]

theorem skipJsonWs_idem (s : Str) : skipJsonWs (skipJsonWs s) = skipJsonWs s := by
  induction s with
  | nil => rfl
  | cons c t ih =>
    cases hw : isJsonWs c with
    | true => rw [skipJsonWs_cons_ws _ _ hw]; exact ih
    | false => rw [skipJsonWs_cons_nws _ _ hw, skipJsonWs_cons_nws _ _ hw]

theorem parseJsonValue_drop_indent (f d : Nat) (s : Str) :
    parseJsonValue f (indentChars d ++ s) = parseJsonValue f s :=
  parseJsonValue_congr _ _ _ (skipJsonWs_indent d s)

theorem parseJsonValue_drop_space (f : Nat) (s : Str) :
    parseJsonValue f (' ' :: s) = parseJsonValue f s :=
  parseJsonValue_congr _ _ _ (skipJsonWs_cons_ws _ _ (by decide))

theorem parseJsonItems_drop_newline (f : Nat) (s : Str) :
    parseJsonItems f ('\n' :: s) = parseJsonItems f s :=
  parseJsonItems_congr _ _ _ (skipJsonWs_newline s)

theorem parseJsonFields_drop_newline (f : Nat) (s : Str) :
    parseJsonFields f ('\n' :: s) = parseJsonFields f s :=
  parseJsonFields_congr _ _ _ (skipJsonWs_newline s)

/-! ## Branch-dispatch lemmas for the value parser -/

theorem parseJsonValue_num_dispatch (f : Nat) (c : Char) (t : Str)
    (hok : isJsonWs c = false ∧ c ≠ '"' ∧ c ≠ '[' ∧ c ≠ '\x7b' ∧ c ≠ 'n' ∧
      c ≠ 't' ∧ c ≠ 'f')
    (hg : (c = '-' || c.isDigit) = true) :
    parseJsonValue (f + 1) (c :: t) =
      (parseJsonInt (c :: t)).map fun p => (Json.num p.1, p.2) := by
  obtain ⟨hws, hq, hbk, hbc, hn, ht, hf⟩ := hok
  simp only [parseJsonValue, skipJsonWs_cons_nws _ _ hws]
  rw [if_neg hn, if_neg ht, if_neg hf, if_neg hq, if_neg hbk, if_neg hbc, if_pos hg]

theorem parseJsonValue_str_dispatch (f : Nat) (r : Str) :
    parseJsonValue (f + 1) ('"' :: r) =
      (parseStrBody r).map fun p => (Json.str p.1, p.2) := by
  simp only [parseJsonValue, skipJsonWs_cons_nws _ _ (by decide : isJsonWs '"' = false)]
  rw [if_neg (by decide : ¬('"' : Char) = 'n'), if_neg (by decide : ¬('"' : Char) = 't'),
    if_neg (by decide : ¬('"' : Char) = 'f'), if_pos (trivial : True)]

theorem parseJsonValue_arr_dispatch (f : Nat) (r : Str) (c0 : Char) (t0 : Str)
    (hskip : skipJsonWs r = c0 :: t0) (hc : c0 ≠ ']') :
    parseJsonValue (f + 1) ('[' :: r) =
      (parseJsonItems f r).map fun p => (Json.arr p.1, p.2) := by
  simp only [parseJsonValue, skipJsonWs_cons_nws _ _ (by decide : isJsonWs '[' = false)]
  rw [if_neg (by decide : ¬('[' : Char) = 'n'), if_neg (by decide : ¬('[' : Char) = 't'),
    if_neg (by decide : ¬('[' : Char) = 'f'), if_neg (by decide : ¬('[' : Char) = '"'),
    if_pos (trivial : True), hskip]
  show (if c0 = ']' then some (Json.arr [], t0)
    else (parseJsonItems f r).map fun p => (Json.arr p.1, p.2)) = _
  rw [if_neg hc]

theorem parseJsonValue_obj_dispatch (f : Nat) (r : Str) (c0 : Char) (t0 : Str)
    (hskip : skipJsonWs r = c0 :: t0) (hc : c0 ≠ '\x7d') :
    parseJsonValue (f + 1) ('\x7b' :: r) =
      (parseJsonFields f r).map fun p => (Json.obj p.1, p.2) := by
  simp only [parseJsonValue, skipJsonWs_cons_nws _ _ (by decide : isJsonWs '\x7b' = false)]
  rw [if_neg (by decide : ¬('\x7b' : Char) = 'n'), if_neg (by decide : ¬('\x7b' : Char) = 't'),
    if_neg (by decide : ¬('\x7b' : Char) = 'f'), if_neg (by decide : ¬('\x7b' : Char) = '"'),
    if_neg (by decide : ¬('\x7b' : Char) = '['), if_pos (trivial : True), hskip]
  show (if c0 = '\x7d' then some (Json.obj [], t0)
    else (parseJsonFields f r).map fun p => (Json.obj p.1, p.2)) = _
  rw [if_neg hc]

/-! ## The codec round-trip: parsing a printed value recovers it -/

theorem quoteChars_append (k X : Str) :
    quoteChars k ++ X = '"' :: (escapeBody k ++ ('"' :: X)) := by
  rw [quoteChars]
  simp [List.append_assoc]

mutual

theorem rtVal : ∀ (v : Json) (d fuel : Nat) (rest : Str),
    (jprint d v).length < fuel → noDigitHead rest = true →
    parseJsonValue fuel (jprint d v ++ rest) = some (v, rest)
  | Json.null, _, 0, _, hf, _ => absurd hf (Nat.not_lt_zero _)
  | Json.null, _, _ + 1, _, _, _ => rfl
  | Json.bool true, _, 0, _, hf, _ => absurd hf (Nat.not_lt_zero _)
  | Json.bool true, _, _ + 1, _, _, _ => rfl
  | Json.bool false, _, 0, _, hf, _ => absurd hf (Nat.not_lt_zero _)
  | Json.bool false, _, _ + 1, _, _, _ => rfl
  | Json.num n, _, 0, _, hf, _ => absurd hf (Nat.not_lt_zero _)
  | Json.num n, d, fuel + 1, rest, _, hr => by
    by_cases hneg : n < 0
    · have harg : intChars n = '-' :: natChars n.natAbs := by rw [intChars, if_pos hneg]
      show parseJsonValue (fuel + 1) (intChars n ++ rest) = some (Json.num n, rest)
      rw [harg, List.cons_append,
        parseJsonValue_num_dispatch fuel '-' _ (by decide) (by decide),
        ← List.cons_append, ← harg, parseJsonInt_print n rest hr, Option.map_some']
    · obtain ⟨c0, t0, hct, hc0⟩ := natChars_head n.natAbs
      obtain ⟨hws', hq', hbk', hbc', hn', ht', hf', _, _, _⟩ := digit_char_props c0 hc0
      have harg : intChars n = c0 :: t0 := by rw [intChars, if_neg hneg, hct]
      have hminus : (c0 = '-' || c0.isDigit) = true := by rw [hc0]; simp
      show parseJsonValue (fuel + 1) (intChars n ++ rest) = some (Json.num n, rest)
      rw [harg, List.cons_append,
        parseJsonValue_num_dispatch fuel c0 _ ⟨hws', hq', hbk', hbc', hn', ht', hf'⟩ hminus,
        ← List.cons_append, ← harg, parseJsonInt_print n rest hr, Option.map_some']
  | Json.str s, _, 0, _, hf, _ => absurd hf (Nat.not_lt_zero _)
  | Json.str s, d, fuel + 1, rest, _, _ => by
    show parseJsonValue (fuel + 1) (quoteChars s ++ rest) = some (Json.str s, rest)
    rw [quoteChars_append, parseJsonValue_str_dispatch, parseStrBody_quoted,
      Option.map_some']
  | Json.arr [], _, 0, _, hf, _ => absurd hf (Nat.not_lt_zero _)
  | Json.arr [], _, _ + 1, _, _, _ => rfl
  | Json.arr (v :: vs), _, 0, _, hf, _ => absurd hf (Nat.not_lt_zero _)
  | Json.arr (v :: vs), d, fuel + 1, rest, hf, _ => by
    obtain ⟨c0, t0, hct, hcws, hcbr, _⟩ := jprint_head (d + 1) v
    have harg : jprint d (Json.arr (v :: vs)) ++ rest =
        '[' :: ('\n' :: (jprintItems d (v :: vs) ++
          ('\n' :: (indentChars d ++ (']' :: rest))))) := by
      show ('[' :: '\n' :: (jprintItems d (v :: vs) ++
        '\n' :: (indentChars d ++ [']']))) ++ rest = _
      simp [List.append_assoc]
    have hitems : jprintItems d (v :: vs) ++ ('\n' :: (indentChars d ++ (']' :: rest))) =
        indentChars (d + 1) ++ (jprint (d + 1) v ++
          (jprintItemsSep d vs ++ ('\n' :: (indentChars d ++ (']' :: rest))))) := by
      show (indentChars (d + 1) ++ (jprint (d + 1) v ++ jprintItemsSep d vs)) ++ _ = _
      simp [List.append_assoc]
    have hskip : skipJsonWs ('\n' :: (jprintItems d (v :: vs) ++
        ('\n' :: (indentChars d ++ (']' :: rest))))) =
        c0 :: (t0 ++ (jprintItemsSep d vs ++ ('\n' :: (indentChars d ++ (']' :: rest))))) := by
      rw [skipJsonWs_newline, hitems, skipJsonWs_indent, hct, List.cons_append,
        skipJsonWs_cons_nws _ _ hcws]
    have hlen : (jprintItems d (v :: vs)).length + 1 < fuel := by
      have h1 : (jprint d (Json.arr (v :: vs))).length =
          (jprintItems d (v :: vs)).length + 2 * d + 4 := by
        show ('[' :: '\n' :: (jprintItems d (v :: vs) ++
          '\n' :: (indentChars d ++ [']']))).length = _
        simp [List.length_append, indentChars, List.length_replicate]
        omega
      omega
    rw [harg, parseJsonValue_arr_dispatch fuel _ c0 _ hskip hcbr,
      parseJsonItems_drop_newline, rtItems v vs d fuel rest hlen, Option.map_some']
  | Json.obj [], _, 0, _, hf, _ => absurd hf (Nat.not_lt_zero _)
  | Json.obj [], _, _ + 1, _, _, _ => rfl
  | Json.obj (kv :: fs), _, 0, _, hf, _ => absurd hf (Nat.not_lt_zero _)
  | Json.obj (kv :: fs), d, fuel + 1, rest, hf, _ => by
    have harg : jprint d (Json.obj (kv :: fs)) ++ rest =
        '\x7b' :: ('\n' :: (jprintFields d (kv :: fs) ++
          ('\n' :: (indentChars d ++ ('\x7d' :: rest))))) := by
      show ('\x7b' :: '\n' :: (jprintFields d (kv :: fs) ++
        '\n' :: (indentChars d ++ ['\x7d']))) ++ rest = _
      simp [List.append_assoc]
    obtain ⟨k, w⟩ := kv
    have hfieldsEq : jprintFields d ((k, w) :: fs) ++
        ('\n' :: (indentChars d ++ ('\x7d' :: rest))) =
        indentChars (d + 1) ++ ('"' :: (escapeBody k ++ ('"' :: (':' :: (' ' :: (jprint (d + 1) w ++
          (jprintFieldsSep d fs ++ ('\n' :: (indentChars d ++ ('\x7d' :: rest)))))))))) := by
      show (indentChars (d + 1) ++ (quoteChars k ++ ':' :: ' ' ::
        (jprint (d + 1) w ++ jprintFieldsSep d fs))) ++ _ = _
      rw [quoteChars]
      simp [List.append_assoc]
    have hskip : skipJsonWs ('\n' :: (jprintFields d ((k, w) :: fs) ++
        ('\n' :: (indentChars d ++ ('\x7d' :: rest))))) =
        '"' :: (escapeBody k ++ ('"' :: (':' :: (' ' :: (jprint (d + 1) w ++
          (jprintFieldsSep d fs ++ ('\n' :: (indentChars d ++ ('\x7d' :: rest))))))))) := by
      rw [skipJsonWs_newline, hfieldsEq, skipJsonWs_indent,
        skipJsonWs_cons_nws _ _ (by decide)]
    have hlen : (jprintFields d ((k, w) :: fs)).length + 1 < fuel := by
      have h1 : (jprint d (Json.obj ((k, w) :: fs))).length =
          (jprintFields d ((k, w) :: fs)).length + 2 * d + 4 := by
        show ('\x7b' :: '\n' :: (jprintFields d ((k, w) :: fs) ++
          '\n' :: (indentChars d ++ ['\x7d']))).length = _
        simp [List.length_append, indentChars, List.length_replicate]
        omega
      omega
    rw [harg, parseJsonValue_obj_dispatch fuel _ '"' _ hskip (by decide),
      parseJsonFields_drop_newline, rtFields (k, w) fs d fuel rest hlen, Option.map_some']

theorem rtItems : ∀ (v : Json) (vs : List Json) (d fuel : Nat) (rest : Str),
    (jprintItems d (v :: vs)).length + 1 < fuel →
    parseJsonItems fuel (jprintItems d (v :: vs) ++
      ('\n' :: (indentChars d ++ (']' :: rest)))) = some (v :: vs, rest)
  | _, _, _, 0, _, hf => absurd hf (Nat.not_lt_zero _)
  | v, [], d, fuel + 1, rest, hf => by
    have hitems : jprintItems d [v] ++ ('\n' :: (indentChars d ++ (']' :: rest))) =
        indentChars (d + 1) ++ (jprint (d + 1) v ++
          ('\n' :: (indentChars d ++ (']' :: rest)))) := by
      show (indentChars (d + 1) ++ (jprint (d + 1) v ++ jprintItemsSep d [])) ++ _ = _
      simp [jprintItemsSep, List.append_assoc]
    have hflen : (jprint (d + 1) v).length < fuel := by
      have h1 : (jprintItems d [v]).length = 2 * (d + 1) + (jprint (d + 1) v).length := by
        show (indentChars (d + 1) ++ (jprint (d + 1) v ++ jprintItemsSep d [])).length = _
        simp [jprintItemsSep, List.length_append, indentChars, List.length_replicate]
        try omega
      omega
    have hval : parseJsonValue fuel (jprintItems d [v] ++
        ('\n' :: (indentChars d ++ (']' :: rest)))) =
        some (v, '\n' :: (indentChars d ++ (']' :: rest))) := by
      rw [hitems, parseJsonValue_drop_indent]
      exact rtVal v (d + 1) fuel _ hflen (by rfl)
    have hsk : skipJsonWs ('\n' :: (indentChars d ++ (']' :: rest))) = ']' :: rest := by
      rw [skipJsonWs_newline, skipJsonWs_indent, skipJsonWs_cons_nws _ _ (by decide)]
    simp only [parseJsonItems]
    rw [hval]
    show (match skipJsonWs ('\n' :: (indentChars d ++ (']' :: rest))) with
      | [] => none
      | c :: r2 =>
        if c = ',' then (parseJsonItems fuel r2).map fun p => (v :: p.1, p.2)
        else if c = ']' then some ([v], r2) else none) = some ([v], rest)
    rw [hsk]
    show (if (']' : Char) = ',' then (parseJsonItems fuel rest).map fun p => (v :: p.1, p.2)
      else if (']' : Char) = ']' then some ([v], rest) else none) = some ([v], rest)
    rw [if_neg (by decide), if_pos rfl]
  | v, v' :: vs', d, fuel + 1, rest, hf => by
    have hitems : jprintItems d (v :: v' :: vs') ++
        ('\n' :: (indentChars d ++ (']' :: rest))) =
        indentChars (d + 1) ++ (jprint (d + 1) v ++
          ((',' :: '\n' :: jprintItems d (v' :: vs')) ++
            ('\n' :: (indentChars d ++ (']' :: rest))))) := by
      show (indentChars (d + 1) ++ (jprint (d + 1) v ++
        jprintItemsSep d (v' :: vs'))) ++ _ = _
      show (indentChars (d + 1) ++ (jprint (d + 1) v ++
        (',' :: '\n' :: jprintItems d (v' :: vs')))) ++ _ = _
      simp [List.append_assoc]
    have hlen1 : (jprintItems d (v :: v' :: vs')).length =
        2 * (d + 1) + (jprint (d + 1) v).length +
          (2 + (jprintItems d (v' :: vs')).length) := by
      show (indentChars (d + 1) ++ (jprint (d + 1) v ++
        jprintItemsSep d (v' :: vs'))).length = _
      show (indentChars (d + 1) ++ (jprint (d + 1) v ++
        (',' :: '\n' :: jprintItems d (v' :: vs')))).length = _
      simp [List.length_append, indentChars, List.length_replicate]
      omega
    have hflen : (jprint (d + 1) v).length < fuel := by omega
    have hval : parseJsonValue fuel (jprintItems d (v :: v' :: vs') ++
        ('\n' :: (indentChars d ++ (']' :: rest)))) =
        some (v, (',' :: '\n' :: jprintItems d (v' :: vs')) ++
          ('\n' :: (indentChars d ++ (']' :: rest)))) := by
      rw [hitems, parseJsonValue_drop_indent]
      exact rtVal v (d + 1) fuel _ hflen (by rfl)
    have hsk : skipJsonWs ((',' :: '\n' :: jprintItems d (v' :: vs')) ++
        ('\n' :: (indentChars d ++ (']' :: rest)))) =
        ',' :: (('\n' :: jprintItems d (v' :: vs')) ++
          ('\n' :: (indentChars d ++ (']' :: rest)))) := by
      rw [List.cons_append, skipJsonWs_cons_nws _ _ (by decide)]
    have hreclen : (jprintItems d (v' :: vs')).length + 1 < fuel := by omega
    simp only [parseJsonItems]
    rw [hval]
    show (match skipJsonWs ((',' :: '\n' :: jprintItems d (v' :: vs')) ++
        ('\n' :: (indentChars d ++ (']' :: rest)))) with
      | [] => none
      | c :: r2 =>
        if c = ',' then (parseJsonItems fuel r2).map fun p => (v :: p.1, p.2)
        else if c = ']' then some ([v], r2) else none) = some (v :: v' :: vs', rest)
    rw [hsk]
    show (if (',' : Char) = ',' then
        (parseJsonItems fuel (('\n' :: jprintItems d (v' :: vs')) ++
          ('\n' :: (indentChars d ++ (']' :: rest))))).map fun p => (v :: p.1, p.2)
      else if (',' : Char) = ']' then
        some ([v], ('\n' :: jprintItems d (v' :: vs')) ++
          ('\n' :: (indentChars d ++ (']' :: rest))))
      else none) = some (v :: v' :: vs', rest)
    rw [if_pos rfl, List.cons_append, parseJsonItems_drop_newline,
      rtItems v' vs' d fuel rest hreclen, Option.map_some']

theorem rtFields : ∀ (kv : Str × Json) (fs : List (Str × Json)) (d fuel : Nat) (rest : Str),
    (jprintFields d (kv :: fs)).length + 1 < fuel →
    parseJsonFields fuel (jprintFields d (kv :: fs) ++
      ('\n' :: (indentChars d ++ ('\x7d' :: rest)))) = some (kv :: fs, rest)
  | _, _, _, 0, _, hf => absurd hf (Nat.not_lt_zero _)
  | (k, w), [], d, fuel + 1, rest, hf => by
    have hfieldsEq : jprintFields d [(k, w)] ++
        ('\n' :: (indentChars d ++ ('\x7d' :: rest))) =
        indentChars (d + 1) ++ ('"' :: (escapeBody k ++ ('"' :: (':' :: (' ' ::
          (jprint (d + 1) w ++ ('\n' :: (indentChars d ++ ('\x7d' :: rest))))))))) := by
      show (indentChars (d + 1) ++ (quoteChars k ++ ':' :: ' ' ::
        (jprint (d + 1) w ++ jprintFieldsSep d []))) ++ _ = _
      rw [quoteChars]
      simp [jprintFieldsSep, List.append_assoc]
    have hsk0 : skipJsonWs (jprintFields d [(k, w)] ++
        ('\n' :: (indentChars d ++ ('\x7d' :: rest)))) =
        '"' :: (escapeBody k ++ ('"' :: (':' :: (' ' ::
          (jprint (d + 1) w ++ ('\n' :: (indentChars d ++ ('\x7d' :: rest)))))))) := by
      rw [hfieldsEq, skipJsonWs_indent, skipJsonWs_cons_nws _ _ (by decide)]
    have hflen : (jprint (d + 1) w).length < fuel := by
      have h1 : (jprintFields d [(k, w)]).length =
          2 * (d + 1) + (quoteChars k).length + 2 + (jprint (d + 1) w).length := by
        show (indentChars (d + 1) ++ (quoteChars k ++ ':' :: ' ' ::
          (jprint (d + 1) w ++ jprintFieldsSep d []))).length = _
        simp [jprintFieldsSep, List.length_append, indentChars, List.length_replicate]
        omega
      omega
    have hval : parseJsonValue fuel (' ' ::
        (jprint (d + 1) w ++ ('\n' :: (indentChars d ++ ('\x7d' :: rest))))) =
        some (w, '\n' :: (indentChars d ++ ('\x7d' :: rest))) := by
      rw [parseJsonValue_drop_space]
      exact rtVal w (d + 1) fuel _ hflen (by rfl)
    have hsk2 : skipJsonWs ('\n' :: (indentChars d ++ ('\x7d' :: rest))) =
        '\x7d' :: rest := by
      rw [skipJsonWs_newline, skipJsonWs_indent, skipJsonWs_cons_nws _ _ (by decide)]
    simp only [parseJsonFields]
    rw [hsk0]
    show (if ('"' : Char) = '"' then
        match parseStrBody (escapeBody k ++ ('"' :: (':' :: (' ' ::
          (jprint (d + 1) w ++ ('\n' :: (indentChars d ++ ('\x7d' :: rest)))))))) with
        | none => none
        | some (key, r1) =>
          match skipJsonWs r1 with
          | [] => none
          | c1 :: r2 =>
            if c1 = ':' then
              match parseJsonValue fuel r2 with
              | none => none
              | some (v, r3) =>
                match skipJsonWs r3 with
                | [] => none
                | c3 :: r4 =>
                  if c3 = ',' then
                    (parseJsonFields fuel r4).map fun p => ((key, v) :: p.1, p.2)
                  else if c3 = '\x7d' then some ([(key, v)], r4)
                  else none
            else none
      else none) = some ([(k, w)], rest)
    rw [if_pos rfl, parseStrBody_quoted]
    show (match skipJsonWs (':' :: (' ' ::
        (jprint (d + 1) w ++ ('\n' :: (indentChars d ++ ('\x7d' :: rest)))))) with
      | [] => none
      | c1 :: r2 =>
        if c1 = ':' then
          match parseJsonValue fuel r2 with
          | none => none
          | some (v, r3) =>
            match skipJsonWs r3 with
            | [] => none
            | c3 :: r4 =>
              if c3 = ',' then
                (parseJsonFields fuel r4).map fun p => ((k, v) :: p.1, p.2)
              else if c3 = '\x7d' then some ([(k, v)], r4)
              else none
        else none) = some ([(k, w)], rest)
    rw [skipJsonWs_cons_nws _ _ (by decide)]
    show (if (':' : Char) = ':' then
        match parseJsonValue fuel (' ' ::
          (jprint (d + 1) w ++ ('\n' :: (indentChars d ++ ('\x7d' :: rest))))) with
        | none => none
        | some (v, r3) =>
          match skipJsonWs r3 with
          | [] => none
          | c3 :: r4 =>
            if c3 = ',' then
              (parseJsonFields fuel r4).map fun p => ((k, v) :: p.1, p.2)
            else if c3 = '\x7d' then some ([(k, v)], r4)
            else none
      else none) = some ([(k, w)], rest)
    rw [if_pos rfl, hval]
    show (match skipJsonWs ('\n' :: (indentChars d ++ ('\x7d' :: rest))) with
      | [] => none
      | c3 :: r4 =>
        if c3 = ',' then (parseJsonFields fuel r4).map fun p => ((k, w) :: p.1, p.2)
        else if c3 = '\x7d' then some ([(k, w)], r4)
        else none) = some ([(k, w)], rest)
    rw [hsk2]
    show (if ('\x7d' : Char) = ',' then
        (parseJsonFields fuel rest).map fun p => ((k, w) :: p.1, p.2)
      else if ('\x7d' : Char) = '\x7d' then some ([(k, w)], rest)
      else none) = some ([(k, w)], rest)
    rw [if_neg (by decide), if_pos rfl]
  | (k, w), kv' :: fs', d, fuel + 1, rest, hf => by
    have hsepc : jprintFieldsSep d (kv' :: fs') =
        ',' :: '\n' :: jprintFields d (kv' :: fs') := by
      obtain ⟨k', w'⟩ := kv'
      rfl
    have hfieldsEq : jprintFields d ((k, w) :: kv' :: fs') ++
        ('\n' :: (indentChars d ++ ('\x7d' :: rest))) =
        indentChars (d + 1) ++ ('"' :: (escapeBody k ++ ('"' :: (':' :: (' ' ::
          (jprint (d + 1) w ++ ((',' :: '\n' :: jprintFields d (kv' :: fs')) ++
            ('\n' :: (indentChars d ++ ('\x7d' :: rest)))))))))) := by
      show (indentChars (d + 1) ++ (quoteChars k ++ ':' :: ' ' ::
        (jprint (d + 1) w ++ jprintFieldsSep d (kv' :: fs')))) ++ _ = _
      rw [quoteChars, hsepc]
      simp [List.append_assoc]
    have hsk0 : skipJsonWs (jprintFields d ((k, w) :: kv' :: fs') ++
        ('\n' :: (indentChars d ++ ('\x7d' :: rest)))) =
        '"' :: (escapeBody k ++ ('"' :: (':' :: (' ' ::
          (jprint (d + 1) w ++ ((',' :: '\n' :: jprintFields d (kv' :: fs')) ++
            ('\n' :: (indentChars d ++ ('\x7d' :: rest))))))))) := by
      rw [hfieldsEq, skipJsonWs_indent, skipJsonWs_cons_nws _ _ (by decide)]
    have hlen1 : (jprintFields d ((k, w) :: kv' :: fs')).length =
        2 * (d + 1) + (quoteChars k).length + 2 + (jprint (d + 1) w).length +
          (2 + (jprintFields d (kv' :: fs')).length) := by
      show (indentChars (d + 1) ++ (quoteChars k ++ ':' :: ' ' ::
        (jprint (d + 1) w ++ jprintFieldsSep d (kv' :: fs')))).length = _
      rw [hsepc]
      simp [List.length_append, indentChars, List.length_replicate]
      omega
    have hflen : (jprint (d + 1) w).length < fuel := by omega
    have hreclen : (jprintFields d (kv' :: fs')).length + 1 < fuel := by omega
    have hval : parseJsonValue fuel (' ' :: (jprint (d + 1) w ++
        ((',' :: '\n' :: jprintFields d (kv' :: fs')) ++
          ('\n' :: (indentChars d ++ ('\x7d' :: rest)))))) =
        some (w, (',' :: '\n' :: jprintFields d (kv' :: fs')) ++
          ('\n' :: (indentChars d ++ ('\x7d' :: rest)))) := by
      rw [parseJsonValue_drop_space]
      exact rtVal w (d + 1) fuel _ hflen (by rfl)
    have hsk2 : skipJsonWs ((',' :: '\n' :: jprintFields d (kv' :: fs')) ++
        ('\n' :: (indentChars d ++ ('\x7d' :: rest)))) =
        ',' :: (('\n' :: jprintFields d (kv' :: fs')) ++
          ('\n' :: (indentChars d ++ ('\x7d' :: rest)))) := by
      rw [List.cons_append, skipJsonWs_cons_nws _ _ (by decide)]
    simp only [parseJsonFields]
    rw [hsk0]
    show (if ('"' : Char) = '"' then
        match parseStrBody (escapeBody k ++ ('"' :: (':' :: (' ' ::
          (jprint (d + 1) w ++ ((',' :: '\n' :: jprintFields d (kv' :: fs')) ++
            ('\n' :: (indentChars d ++ ('\x7d' :: rest))))))))) with
        | none => none
        | some (key, r1) =>
          match skipJsonWs r1 with
          | [] => none
          | c1 :: r2 =>
            if c1 = ':' then
              match parseJsonValue fuel r2 with
              | none => none
              | some (v, r3) =>
                match skipJsonWs r3 with
                | [] => none
                | c3 :: r4 =>
                  if c3 = ',' then
                    (parseJsonFields fuel r4).map fun p => ((key, v) :: p.1, p.2)
                  else if c3 = '\x7d' then some ([(key, v)], r4)
                  else none
            else none
      else none) = some ((k, w) :: kv' :: fs', rest)
    rw [if_pos rfl, parseStrBody_quoted]
    show (match skipJsonWs (':' :: (' ' :: (jprint (d + 1) w ++
        ((',' :: '\n' :: jprintFields d (kv' :: fs')) ++
          ('\n' :: (indentChars d ++ ('\x7d' :: rest))))))) with
      | [] => none
      | c1 :: r2 =>
        if c1 = ':' then
          match parseJsonValue fuel r2 with
          | none => none
          | some (v, r3) =>
            match skipJsonWs r3 with
            | [] => none
            | c3 :: r4 =>
              if c3 = ',' then
                (parseJsonFields fuel r4).map fun p => ((k, v) :: p.1, p.2)
              else if c3 = '\x7d' then some ([(k, v)], r4)
              else none
        else none) = some ((k, w) :: kv' :: fs', rest)
    rw [skipJsonWs_cons_nws _ _ (by decide)]
    show (if (':' : Char) = ':' then
        match parseJsonValue fuel (' ' :: (jprint (d + 1) w ++
          ((',' :: '\n' :: jprintFields d (kv' :: fs')) ++
            ('\n' :: (indentChars d ++ ('\x7d' :: rest)))))) with
        | none => none
        | some (v, r3) =>
          match skipJsonWs r3 with
          | [] => none
          | c3 :: r4 =>
            if c3 = ',' then
              (parseJsonFields fuel r4).map fun p => ((k, v) :: p.1, p.2)
            else if c3 = '\x7d' then some ([(k, v)], r4)
            else none
      else none) = some ((k, w) :: kv' :: fs', rest)
    rw [if_pos rfl, hval]
    show (match skipJsonWs ((',' :: '\n' :: jprintFields d (kv' :: fs')) ++
        ('\n' :: (indentChars d ++ ('\x7d' :: rest)))) with
      | [] => none
      | c3 :: r4 =>
        if c3 = ',' then (parseJsonFields fuel r4).map fun p => ((k, w) :: p.1, p.2)
        else if c3 = '\x7d' then some ([(k, w)], r4)
        else none) = some ((k, w) :: kv' :: fs', rest)
    rw [hsk2]
    show (if (',' : Char) = ',' then
        (parseJsonFields fuel (('\n' :: jprintFields d (kv' :: fs')) ++
          ('\n' :: (indentChars d ++ ('\x7d' :: rest))))).map
            fun p => ((k, w) :: p.1, p.2)
      else if (',' : Char) = '\x7d' then
        some ([(k, w)], ('\n' :: jprintFields d (kv' :: fs')) ++
          ('\n' :: (indentChars d ++ ('\x7d' :: rest))))
      else none) = some ((k, w) :: kv' :: fs', rest)
    rw [if_pos rfl, List.cons_append, parseJsonFields_drop_newline,
      rtFields kv' fs' d fuel rest hreclen, Option.map_some']

end

/-- Parsing a printed value recovers it exactly. -/
theorem parseJson_print (v : Json) : parseJson (jprint 0 v) = some v := by
  have h := rtVal v 0 ((jprint 0 v).length + 1) [] (by omega) (by rfl)
  rw [List.append_nil] at h
  simp only [parseJson]
  rw [h]
  rfl

/-! ## Typed decode inverts typed encode -/

theorem decodePairs_map (l : List (Str × Str)) :
    decodePairs (l.map fun kv => (kv.1, Json.str kv.2)) = some l := by
  induction l with
  | nil => rfl
  | cons kv t ih =>
    rw [List.map_cons]
    simp [decodePairs, asStr, ih]

theorem strPairsOfJson_roundtrip (l : List (Str × Str)) :
    strPairsOfJson (strPairsToJson l) = some l :=
  decodePairs_map l

theorem recordedRequestOfJson_roundtrip (r : RecordedRequest) :
    recordedRequestOfJson (recordedRequestToJson r) = some r := by
  obtain ⟨method, url, path, query, headers, body, timestamp⟩ := r
  cases query <;> cases headers <;> cases body <;>
    simp +decide [recordedRequestToJson, recordedRequestOfJson, optProp, jgetProp,
      asObj, asStr, asInt, optStrProp, optStrPairsProp, strPairsOfJson_roundtrip,
      List.find?]

theorem recordedResponseOfJson_roundtrip (r : RecordedResponse) :
    recordedResponseOfJson (recordedResponseToJson r) = some r := by
  obtain ⟨status, statusText, headers, body, timestamp⟩ := r
  cases statusText <;> cases headers <;> cases body <;>
    simp +decide [recordedResponseToJson, recordedResponseOfJson, optProp, jgetProp,
      asObj, asStr, asInt, optStrProp, optStrPairsProp, strPairsOfJson_roundtrip,
      List.find?]

theorem recordingOfJson_roundtrip (r : Recording) :
    recordingOfJson (recordingToJson r) = some r := by
  obtain ⟨id, request, response⟩ := r
  simp +decide [recordingToJson, recordingOfJson, jgetProp, asObj, asStr, List.find?,
    recordedRequestOfJson_roundtrip, recordedResponseOfJson_roundtrip]

theorem decodeList_recordings (l : List Recording) :
    decodeList recordingOfJson (l.map recordingToJson) = some l := by
  induction l with
  | nil => rfl
  | cons r t ih =>
    rw [List.map_cons]
    simp [decodeList, recordingOfJson_roundtrip, ih]

theorem scenarioOfJson_roundtrip (s : Scenario) :
    scenarioOfJson (scenarioToJson s) = some s := by
  obtain ⟨name, description, recordings, createdAt, updatedAt⟩ := s
  cases description <;>
    simp +decide [scenarioToJson, scenarioOfJson, optProp, jgetProp, asObj, asStr,
      asInt, asArr, optStrProp, List.find?, decodeList_recordings]

/-- C9: serializing a scenario with `JSON.stringify(・, null, 2)` and
parsing it back with `JSON.parse` reproduces the scenario field-for-field,
nested recordings in their original order — for every scenario of the
JSON-representable data model (strings, integers, booleans, nested
mappings/sequences, null; optional fields omitted when absent). -/
theorem claim_C9 (s : Scenario) :
    deserializeScenario (serializeScenario s) = some s := by
  rw [deserializeScenario, serializeScenario, parseJson_print]
  exact scenarioOfJson_roundtrip s

end MockMaster
